import Mathlib

/-!
# keepassgo: credential tree, cipher policy and password generator

A shallow embedding of the `kdbx` package (`password_generator.go`, `reader.go`,
`writer.go`) together with the properties of its specification.

Conventions of the embedding
* Go `string` values are Lean `String`s.  Every character constant of the package is
  ASCII, so byte positions and character positions coincide on them.
* Go `int` is `Int`; lengths of slices and strings are `Nat`.
* A Go `(value, error)` pair is a Lean pair whose second component is `Option String`
  (`none` is the `nil` error).
* A run-time panic (index out of range, nil dereference) is the result `none` of a
  function returning `Option`.
* `crypto/rand`, the file system and the `gokeepasslib` codec are external: they are
  explicit arguments of the functions that call them.
-/

namespace kdbx

/-! ## password_generator.go -/

def LowercaseLetters : String := "abcdefghijklmnopqrstuvwxyz"

def UppercaseLetters : String := "ABCDEFGHIJKLMNOPQRSTUVWXYZ"

def Digits : String := "0123456789"

def SpecialChars : String := "!@#$%^&*()_+-=[]\x7b\x7d|;:,.<>?"

/-- Options of the password generator (`PasswordOptions`). -/
structure PasswordOptions where
  Length : Int
  UseLowercase : Bool
  UseUppercase : Bool
  UseDigits : Bool
  UseSpecial : Bool
  ExcludeAmbiguous : Bool
  deriving DecidableEq, Repr

def DefaultPasswordOptions : PasswordOptions :=
  { Length := 20, UseLowercase := true, UseUppercase := true, UseDigits := true,
    UseSpecial := true, ExcludeAmbiguous := false }

/-- The loop of `isInCharset`: return `true` at the first equal character. -/
def isInCharsetLoop (c : Char) : List Char → Bool
  | [] => false
  | ch :: rest => if c = ch then true else isInCharsetLoop c rest

def isInCharset (c : Char) (charset : String) : Bool :=
  isInCharsetLoop c charset.data

/-- One iteration of the outer loop of `removeAmbiguous`: the inner loop raises
`isAmbiguous` at the first equal character of `ambiguous` and breaks. -/
def removeAmbiguousStep (ambiguous : String) (result : String) (c : Char) : String :=
  let isAmbiguous := ambiguous.data.any (fun amb => c == amb)
  if !isAmbiguous then result ++ String.singleton c else result

def removeAmbiguous (s : String) : String :=
  let ambiguous := "il1Lo0O"
  s.data.foldl (removeAmbiguousStep ambiguous) ""

def buildCharset (opts : PasswordOptions) : String :=
  let charset := ""
  let charset :=
    if opts.UseLowercase then
      (if opts.ExcludeAmbiguous then charset ++ removeAmbiguous LowercaseLetters
       else charset ++ LowercaseLetters)
    else charset
  let charset :=
    if opts.UseUppercase then
      (if opts.ExcludeAmbiguous then charset ++ removeAmbiguous UppercaseLetters
       else charset ++ UppercaseLetters)
    else charset
  let charset :=
    if opts.UseDigits then
      (if opts.ExcludeAmbiguous then charset ++ removeAmbiguous Digits
       else charset ++ Digits)
    else charset
  let charset := if opts.UseSpecial then charset ++ SpecialChars else charset
  charset

/-- The four flags `hasLower, hasUpper, hasDigit, hasSpecial` of `validatePassword`. -/
structure ClassFlags where
  hasLower : Bool
  hasUpper : Bool
  hasDigit : Bool
  hasSpecial : Bool
  deriving DecidableEq, Repr

/-- The `switch` of `validatePassword` for one character: the first matching case wins. -/
def validateStep (f : ClassFlags) (c : Char) : ClassFlags :=
  if isInCharset c LowercaseLetters then { f with hasLower := true }
  else if isInCharset c UppercaseLetters then { f with hasUpper := true }
  else if isInCharset c Digits then { f with hasDigit := true }
  else if isInCharset c SpecialChars then { f with hasSpecial := true }
  else f

def validatePassword (password : String) (opts : PasswordOptions) : Bool :=
  let f := password.data.foldl validateStep ⟨false, false, false, false⟩
  if opts.UseLowercase && !f.hasLower then false
  else if opts.UseUppercase && !f.hasUpper then false
  else if opts.UseDigits && !f.hasDigit then false
  else if opts.UseSpecial && !f.hasSpecial then false
  else true

/-- The random source `crypto/rand.Reader` as seen by the generator: the `k`-th call of
`rand.Int` either fails (`none`) or is handed a raw random number. -/
abbrev RandReader := Nat → Option Nat

/-- The call `rand.Int(rand.Reader, max)` for `max > 0`: an error, or a value in
`[0, max)`; the second component is the number of calls made so far. -/
def randInt (rd : RandReader) (pos : Nat) (max : Nat) : Option Nat × Nat :=
  ((rd pos).map (fun raw => raw % max), pos + 1)

/-- The sampling loop `for i := range password` of `GeneratePassword`: `n` positions are
still to be filled, `password` holds the bytes written so far.  `none` in the first
component is the error of `rand.Int`. -/
def fillPassword (rd : RandReader) (charset : String) :
    Nat → Nat → List Char → Option (List Char) × Nat
  | 0, pos, password => (some password, pos)
  | n + 1, pos, password =>
    match randInt rd pos charset.length with
    | (none, pos1) => (none, pos1)
    | (some randomIndex, pos1) =>
      fillPassword rd charset n pos1 (password ++ [charset.data.getD randomIndex default])

/-- The function `GeneratePassword`.  It calls itself when the sample fails
`validatePassword`; `fuel` bounds the depth of that recursion, and the result is `none`
when the depth is exhausted.  A result `some ((s, err), pos)` is the Go pair `(s, err)`
together with the number `pos` of `rand.Int` calls made so far. -/
def GeneratePassword (rd : RandReader) (opts : PasswordOptions) :
    Nat → Nat → Option ((String × Option String) × Nat)
  | 0, _ => none
  | fuel + 1, pos =>
    if opts.Length < 8 then
      some (("", some "lunghezza password deve essere almeno 8 caratteri"), pos)
    else
      let charset := buildCharset opts
      if charset.length = 0 then
        some (("", some "nessun set di caratteri selezionato"), pos)
      else
        match fillPassword rd charset opts.Length.toNat pos [] with
        | (none, pos1) => some (("", some "errore generazione numero casuale"), pos1)
        | (some password, pos1) =>
          if !validatePassword (String.mk password) opts then
            GeneratePassword rd opts fuel pos1
          else
            some ((String.mk password, none), pos1)

/-- The body of `log2`: the guard `x <= 0`, then the constant product the source
returns.  `float64` is read as exact rational arithmetic. -/
def log2 (x : ℚ) : ℚ :=
  if x ≤ 0 then 0 else 1.44269504089 * 2.71828182846

/-- The function `CalculateEntropy`.  `len(charset)` counts the characters of the ASCII
universe, `len(password)` the bytes of the password. -/
def CalculateEntropy (password : String) (opts : PasswordOptions) : ℚ :=
  let charset := buildCharset opts
  let charsetSize : ℚ := (charset.length : ℚ)
  let passwordLength : ℚ := (password.utf8ByteSize : ℚ)
  if charsetSize = 0 then 0 else passwordLength * log2 charsetSize

/-! ## writer.go: cipher policy -/

abbrev CipherType := Int

def CipherAES256 : CipherType := 0

def CipherChaCha20 : CipherType := 1

/-- The map `ModernCiphers`, as its list of key/value pairs. -/
def ModernCiphers : List (CipherType × String) :=
  [(CipherAES256, "AES-256"), (CipherChaCha20, "ChaCha20")]

/-- Options of `Save` and `CreateNewDatabase` (`SaveOptions`). -/
structure SaveOptions where
  FilePath : String
  Password : String
  CipherType : CipherType
  KDFIterations : Nat
  KDFMemory : Nat
  KDFParallelism : Nat
  deriving DecidableEq, Repr

def DefaultSaveOptions (filePath password : String) : SaveOptions :=
  { FilePath := filePath, Password := password, CipherType := CipherChaCha20,
    KDFIterations := 10, KDFMemory := 1048576, KDFParallelism := 4 }

/-- The function `isModernCipher`: the lookup `_, exists := ModernCiphers[cipher]`. -/
def isModernCipher (cipher : CipherType) : Bool :=
  (ModernCiphers.lookup cipher).isSome

end kdbx

/-! ## The library gokeepasslib

The types of the library that the package reads and writes, and the library calls it
makes. -/

namespace gokeepasslib

/-- Modelled from the spec: the library type `V`, the content of one field of an entry
and its protection mark (glossary, "protected field"). -/
structure V where
  Content : String
  Protected : Bool := false
  deriving DecidableEq, Repr

/-- Modelled from the spec: the library type `ValueData`, one key/value field of an entry
(§6, persisted structure). -/
structure ValueData where
  Key : String
  Value : V
  deriving DecidableEq, Repr

/-- Modelled from the spec: the library type `Entry`, of which the package uses the
sequence of key/value fields (§6, persisted structure). -/
structure Entry where
  Values : List ValueData
  deriving DecidableEq, Repr

/-- Modelled from the spec: the library type `Group`, a named node with an ordered
sequence of child groups and an ordered sequence of entries (§3). -/
structure Group where
  Name : String
  Groups : List Group
  Entries : List Entry
  deriving Repr

/-- Modelled from the spec: the library type `RootData`, the list of top-level groups. -/
structure RootData where
  Groups : List Group
  deriving Repr

/-- Modelled from the spec: the library type `MetaData`, the metadata block of the
persisted structure that the codec owns (§6); the package never reads or writes it. -/
structure MetaData where
  Generator : String
  deriving DecidableEq, Repr

/-- Modelled from the spec: the library type `DBContent`; `Meta` and `Root` are pointers
that may be nil. -/
structure DBContent where
  Meta : Option MetaData
  Root : Option RootData
  deriving Repr

/-- Modelled from the spec: the cipher/KDF settings of a database (§3: chosen cipher,
iteration count, memory cost, parallelism). -/
structure Settings where
  Cipher : Int
  KDFIterations : Nat
  KDFMemory : Nat
  KDFParallelism : Nat
  deriving DecidableEq, Repr

/-- Modelled from the spec: the library type `Database` (§3: credentials, cipher/KDF
settings and the owned tree); `Content` is a pointer that may be nil. -/
structure Database where
  Credentials : String
  Settings : Settings
  Content : Option DBContent
  deriving Repr

/-- Modelled from the spec: the calls into the library (§6, codec collaborator).  `Byte`
is the type of the units a file is made of.  `Encode` yields what it wrote to the file
and its error, or `none` when it panics; `Decode` fills the database it is given from the
content of the file; the two protection calls transform the database in place. -/
structure Lib (Byte : Type) where
  NewDatabase : Database
  NewEntry : Entry
  LockProtectedEntries : Database → Database × Option String
  UnlockProtectedEntries : Database → Database × Option String
  Encode : Database → Option (List Byte × Option String)
  Decode : List Byte → Database → Database × Option String

end gokeepasslib

/-! ## The file system -/

/-- The file system as the package uses it: the content of every existing file, and the
paths at which `os.Create` fails. -/
structure FileSystem (Byte : Type) where
  files : List (String × List Byte)
  denied : List String

/-- The call `os.Open` followed by reading the file to its end: `none` when the file is
missing. -/
def FileSystem.open {Byte : Type} (fs : FileSystem Byte) (path : String) :
    Option (List Byte) :=
  fs.files.lookup path

/-- The call `os.Create`: the file is created, or truncated when it exists, and is empty
afterwards; `none` when creation fails, the file system being untouched. -/
def FileSystem.create {Byte : Type} (fs : FileSystem Byte) (path : String) :
    Option (FileSystem Byte) :=
  if path ∈ fs.denied then none
  else some { fs with files := (path, []) :: fs.files.filter (fun f => f.1 != path) }

/-- Writing `bytes` at the end of the file just created at `path`. -/
def FileSystem.write {Byte : Type} (fs : FileSystem Byte) (path : String)
    (bytes : List Byte) : FileSystem Byte :=
  { fs with files := fs.files.map (fun f => if f.1 = path then (f.1, f.2 ++ bytes) else f) }

namespace kdbx

/-! ## reader.go -/

/-- The wrapper `Database`: the embedded pointer `*gokeepasslib.Database` (field
`Embedded`, `none` is nil) and the file path. -/
structure Database where
  Embedded : Option gokeepasslib.Database
  FilePath : String
  deriving Repr

/-- One password entry as the package hands it out (`Entry`). -/
structure Entry where
  Title : String := ""
  Username : String := ""
  Password : String := ""
  URL : String := ""
  Notes : String := ""
  GroupPath : String := ""
  deriving DecidableEq, Repr

/-- One group as the package hands it out (`Group`). -/
structure Group where
  Name : String
  Path : String
  Entries : List Entry
  SubGroups : List Group
  deriving Repr

/-- The computation of `currentPath` at the head of `extractEntriesFromGroup` and of
`extractGroups`. -/
def currentPath (parentPath : String) (name : String) : String :=
  if name ≠ "" then
    (if parentPath ≠ "" then parentPath ++ (" / " ++ name) else name)
  else parentPath

/-- The `switch value.Key` of the extraction loops, for one field. -/
def extractValue (e : Entry) (value : gokeepasslib.ValueData) : Entry :=
  if value.Key = "Title" then { e with Title := value.Value.Content }
  else if value.Key = "UserName" then { e with Username := value.Value.Content }
  else if value.Key = "Password" then { e with Password := value.Value.Content }
  else if value.Key = "URL" then { e with URL := value.Value.Content }
  else if value.Key = "Notes" then { e with Notes := value.Value.Content }
  else e

/-- The body of the loop over `group.Entries`: `e := Entry{GroupPath: currentPath}`, then
the loop over `entry.Values`. -/
def extractEntry (path : String) (entry : gokeepasslib.Entry) : Entry :=
  entry.Values.foldl extractValue { GroupPath := path }

/-- The loop over `group.Entries`: `entries = append(entries, e)`. -/
def extractEntries (path : String) (entries : List gokeepasslib.Entry) : List Entry :=
  entries.foldl (fun acc entry => acc ++ [extractEntry path entry]) []

mutual
/-- The method `extractEntriesFromGroup`. -/
def extractEntriesFromGroup : gokeepasslib.Group → String → List Entry
  | ⟨name, groups, entries⟩, parentPath =>
    extractEntriesFromSubGroups groups (currentPath parentPath name)
      (extractEntries (currentPath parentPath name) entries)
/-- The loop over `group.Groups` of `extractEntriesFromGroup`:
`entries = append(entries, subEntries...)`. -/
def extractEntriesFromSubGroups : List gokeepasslib.Group → String → List Entry → List Entry
  | [], _, entries => entries
  | g :: rest, path, entries =>
    extractEntriesFromSubGroups rest path (entries ++ extractEntriesFromGroup g path)
end

/-- The method `GetAllEntries`; `none` is a panic (nil embedded pointer, or `Groups[0]` on
an empty list). -/
def Database.GetAllEntries (db : Database) : Option (List Entry) :=
  match db.Embedded with
  | none => none
  | some d =>
    match d.Content with
    | none => some []
    | some content =>
      match content.Root with
      | none => some []
      | some root =>
        match root.Groups with
        | [] => none
        | g :: _ => some (extractEntriesFromGroup g "")

mutual
/-- The method `extractGroups`. -/
def extractGroups : gokeepasslib.Group → String → List Group
  | ⟨name, groups, entries⟩, parentPath =>
    [{ Name := name, Path := currentPath parentPath name,
       Entries := extractEntries (currentPath parentPath name) entries,
       SubGroups := extractSubGroups groups (currentPath parentPath name) [] }]
/-- The loop over `group.Groups` of `extractGroups`:
`g.SubGroups = append(g.SubGroups, subGroups...)`. -/
def extractSubGroups : List gokeepasslib.Group → String → List Group → List Group
  | [], _, subGroups => subGroups
  | g :: rest, path, subGroups =>
    extractSubGroups rest path (subGroups ++ extractGroups g path)
end

/-- The method `GetAllGroups`; `none` is a panic (nil embedded pointer). -/
def Database.GetAllGroups (db : Database) : Option (List Group) :=
  match db.Embedded with
  | none => none
  | some d =>
    match d.Content with
    | none => some []
    | some content =>
      match content.Root with
      | none => some []
      | some root =>
        match root.Groups with
        | [] => some []
        | g :: _ => some (extractGroups g "")

/-- The function `OpenDatabase`, over a file system and the library. -/
def OpenDatabase {Byte : Type} (lib : gokeepasslib.Lib Byte) (fs : FileSystem Byte)
    (filePath : String) (password : String) : Option Database × Option String :=
  match fs.open filePath with
  | none => (none, some "errore apertura file")
  | some file =>
    let db := { lib.NewDatabase with Credentials := password }
    match lib.Decode file db with
    | (_, some _) => (none, some "errore decodifica database")
    | (db, none) =>
      match lib.UnlockProtectedEntries db with
      | (_, some _) => (none, some "errore sblocco entries")
      | (db, none) => (some { Embedded := some db, FilePath := filePath }, none)

/-- The method `Close`. -/
def Database.Close {Byte : Type} (lib : gokeepasslib.Lib Byte) (db : Database) :
    Database × Option String :=
  match db.Embedded with
  | some d =>
    let r := lib.LockProtectedEntries d
    ({ db with Embedded := some r.1 }, r.2)
  | none => (db, none)

/-! ## writer.go -/

/-- The function `setModernEncryption`: it returns `nil` and leaves the database it is
given as it is.  The result is the database after the call and the returned error. -/
def setModernEncryption (db : gokeepasslib.Database) (_opts : SaveOptions) :
    gokeepasslib.Database × Option String :=
  (db, none)

/-- The function `CreateNewDatabase`.  The literal `&gokeepasslib.DBContent{Root: ...}`
that replaces the content of the new database leaves its `Meta` pointer nil. -/
def CreateNewDatabase {Byte : Type} (lib : gokeepasslib.Lib Byte) (opts : SaveOptions) :
    Option Database × Option String :=
  let db := { lib.NewDatabase with Credentials := opts.Password }
  match setModernEncryption db opts with
  | (_, some _) => (none, some "errore impostazione cifratura")
  | (db, none) =>
    let db := { db with
      Content := some { Meta := none,
                        Root := some { Groups := [{ Name := "Root", Groups := [], Entries := [] }] } } }
    (some { Embedded := some db, FilePath := opts.FilePath }, none)

/-- The method `Save`, over a file system and the library.  The result is the database
and the file system after the call and the returned error; `none` is a panic (the call
of `LockProtectedEntries` through a nil embedded pointer, or a panic inside `Encode`). -/
def Database.Save {Byte : Type} (lib : gokeepasslib.Lib Byte) (db : Database)
    (fs : FileSystem Byte) (opts : SaveOptions) :
    Option ((Database × FileSystem Byte) × Option String) :=
  if !isModernCipher opts.CipherType then
    some ((db, fs), some "cipher non supportato: usa solo AES-256 o ChaCha20")
  else
    match db.Embedded with
    | none => none
    | some d =>
      match setModernEncryption d opts with
      | (d, some _) =>
        some (({ db with Embedded := some d }, fs), some "errore impostazione cifratura")
      | (d, none) =>
        match lib.LockProtectedEntries d with
        | (d, some _) => some (({ db with Embedded := some d }, fs), some "errore lock entries")
        | (d, none) =>
          match fs.create opts.FilePath with
          | none => some (({ db with Embedded := some d }, fs), some "errore creazione file")
          | some fs =>
            match lib.Encode d with
            | none => none
            | some (bytes, some _) =>
              some (({ db with Embedded := some d }, fs.write opts.FilePath bytes),
                some "errore encoding database")
            | some (bytes, none) =>
              some (({ Embedded := some d, FilePath := opts.FilePath },
                fs.write opts.FilePath bytes), none)

/-- A pointer to a group of the tree: the indices of the child groups to follow from
`Root.Groups[0]`; the empty list points to `Root.Groups[0]` itself. -/
abbrev GroupRef := List Nat

/-- Apply `f` to the element at position `i` of a list, when there is one. -/
def modifyNth {α : Type} (f : α → α) : Nat → List α → List α
  | _, [] => []
  | 0, a :: rest => f a :: rest
  | i + 1, a :: rest => a :: modifyNth f i rest

/-- Assignment through a group pointer: apply `f` to the group that `ref` points to
below `g`. -/
def modifyGroup (f : gokeepasslib.Group → gokeepasslib.Group) :
    GroupRef → gokeepasslib.Group → gokeepasslib.Group
  | [], g => f g
  | i :: rest, g => { g with Groups := modifyNth (modifyGroup f rest) i g.Groups }

/-- The group that `ref` points to below `g`. -/
def groupAt : GroupRef → gokeepasslib.Group → Option gokeepasslib.Group
  | [], g => some g
  | i :: rest, g => (g.Groups.get? i).bind (groupAt rest)

/-- The method `findOrCreateGroup`: both of its branches return
`&db.Content.Root.Groups[0]`.  The result is the database after the call and the pointer;
`none` is a panic (nil dereference, or `Groups[0]` on an empty list). -/
def Database.findOrCreateGroup (db : Database) (path : String) :
    Option (Database × GroupRef) :=
  match db.Embedded with
  | none => none
  | some d =>
    match d.Content with
    | none => none
    | some content =>
      match content.Root with
      | none => none
      | some root =>
        match root.Groups with
        | [] => none
        | _ :: _ =>
          if path = "" ∨ path = "Root" then some (db, [])
          else some (db, [])

/-- The assignment `group.Entries = append(group.Entries, entry)` through the pointer
`ref` of a database whose root group exists. -/
def Database.appendEntry (db : Database) (ref : GroupRef) (entry : gokeepasslib.Entry) :
    Database :=
  match db.Embedded with
  | none => db
  | some d =>
    match d.Content with
    | none => db
    | some content =>
      match content.Root with
      | none => db
      | some root =>
        let groups :=
          modifyNth (modifyGroup (fun g => { g with Entries := g.Entries ++ [entry] }) ref)
            0 root.Groups
        { db with Embedded := some { d with
            Content := some { Meta := content.Meta, Root := some { Groups := groups } } } }

/-- The method `AddEntry`.  The result is the database after the call and the returned
error; `none` is a panic. -/
def Database.AddEntry {Byte : Type} (lib : gokeepasslib.Lib Byte) (db : Database)
    (groupPath title username password url notes : String) :
    Option (Database × Option String) :=
  match db.Embedded with
  | none => none
  | some d =>
    if d.Content.isNone ∨ (d.Content.bind (fun c => c.Root)).isNone then
      some (db, some "database non inizializzato correttamente")
    else
      match db.findOrCreateGroup groupPath with
      | none => none
      | some (db, group) =>
        let entry := lib.NewEntry
        let entry := { entry with Values := entry.Values ++
          [{ Key := "Title", Value := { Content := title } },
           { Key := "UserName", Value := { Content := username } },
           { Key := "Password", Value := { Content := password } },
           { Key := "URL", Value := { Content := url } },
           { Key := "Notes", Value := { Content := notes } }] }
        some (db.appendEntry group entry, none)

/-! ## Definitions used to state the properties -/

mutual
/-- Spec-side definition: the pre-order depth-first traversal of the entries of a group
tree — the group's own entries in stored order, then the traversal of every child
subtree in stored order. -/
def preorderEntries : gokeepasslib.Group → String → List Entry
  | ⟨name, groups, entries⟩, parentPath =>
    entries.map (extractEntry (currentPath parentPath name)) ++
      preorderChildren groups (currentPath parentPath name)
/-- Spec-side definition: the traversals of the child subtrees, in stored order. -/
def preorderChildren : List gokeepasslib.Group → String → List Entry
  | [], _ => []
  | g :: rest, path => preorderEntries g path ++ preorderChildren rest path
end

mutual
/-- Spec-side definition: the number of entries held anywhere in a group tree. -/
def countEntries : gokeepasslib.Group → Nat
  | ⟨_, groups, entries⟩ => entries.length + countChildren groups
/-- Spec-side definition: the number of entries held in a list of group trees. -/
def countChildren : List gokeepasslib.Group → Nat
  | [] => 0
  | g :: rest => countEntries g + countChildren rest
end

/-- Spec-side definition: the group path as the specification words it — the names of
the groups from the root down to the owning group, the root's own name skipped, joined
with " / ". -/
def specGroupPath (names : List String) : String :=
  " / ".intercalate names.tail

/-- The join of the non-empty names of the groups from the root down to the owning
group, the root included, with " / ". -/
def joinedGroupPath (names : List String) : String :=
  " / ".intercalate (names.filter (fun n => n ≠ ""))

mutual
/-- Spec-side definition: for every entry of a group tree, in pre-order, the names of the
groups from the root down to the group that owns it; `above` holds the names of the
ancestors of the group. -/
def ownerNames : gokeepasslib.Group → List String → List (List String)
  | ⟨name, groups, entries⟩, above =>
    entries.map (fun _ => above ++ [name]) ++ ownerNamesChildren groups (above ++ [name])
/-- Spec-side definition: `ownerNames` over the child subtrees, in stored order. -/
def ownerNamesChildren : List gokeepasslib.Group → List String → List (List String)
  | [], _ => []
  | g :: rest, above => ownerNames g above ++ ownerNamesChildren rest above
end

/-- An instance of the library for concrete evaluation: a file holds the database itself
as its single unit, and the protection calls leave the database as it is.  As in the
library, the new database carries a content with metadata, and the encoder dereferences
the metadata of the content: it panics on a database whose content or metadata is
nil. -/
def plainLib : gokeepasslib.Lib gokeepasslib.Database :=
  { NewDatabase := ⟨"", ⟨0, 0, 0, 0⟩, some ⟨some ⟨"gokeepasslib"⟩, some ⟨[]⟩⟩⟩
    NewEntry := ⟨[]⟩
    LockProtectedEntries := fun d => (d, none)
    UnlockProtectedEntries := fun d => (d, none)
    Encode := fun d =>
      match d.Content with
      | some ⟨some _, _⟩ => some ([d], none)
      | _ => none
    Decode := fun bytes d =>
      match bytes with
      | [x] => if x.Credentials = d.Credentials then (x, none) else (d, some "credentials")
      | _ => (d, some "format") }

/-- The five fields that `AddEntry` appends to the values of the new entry. -/
def addedValues (title username password url notes : String) : List gokeepasslib.ValueData :=
  [{ Key := "Title", Value := { Content := title } },
   { Key := "UserName", Value := { Content := username } },
   { Key := "Password", Value := { Content := password } },
   { Key := "URL", Value := { Content := url } },
   { Key := "Notes", Value := { Content := notes } }]

/-- Spec-side definition: the set of ambiguous characters `i, l, 1, L, o, 0, O`. -/
def ambiguousChars : List Char := ['i', 'l', '1', 'L', 'o', '0', 'O']

/-- Spec-side definition: the string of one class as it enters the universe — with every
ambiguous character removed when `exclude` is set, whole otherwise. -/
def specClass (exclude : Bool) (cls : String) : String :=
  if exclude then String.mk (cls.data.filter (fun c => !ambiguousChars.contains c)) else cls

/-- Spec-side definition: the universe as the specification words it — the strings of
the enabled classes in the order lowercase, uppercase, digit, special, each taken
through `specClass`; a disabled class contributes nothing. -/
def specCharset (opts : PasswordOptions) : String :=
  (if opts.UseLowercase then specClass opts.ExcludeAmbiguous LowercaseLetters else "") ++
  (if opts.UseUppercase then specClass opts.ExcludeAmbiguous UppercaseLetters else "") ++
  (if opts.UseDigits then specClass opts.ExcludeAmbiguous Digits else "") ++
  (if opts.UseSpecial then specClass opts.ExcludeAmbiguous SpecialChars else "")

/-- Spec-side definition: the number of character classes that the options enable. -/
def enabledClasses (opts : PasswordOptions) : Nat :=
  (if opts.UseLowercase then 1 else 0) + (if opts.UseUppercase then 1 else 0) +
  (if opts.UseDigits then 1 else 0) + (if opts.UseSpecial then 1 else 0)

/-- An instance of the library for concrete evaluation whose encoder fails before it has
written anything. -/
def brokenEncodeLib : gokeepasslib.Lib gokeepasslib.Database :=
  { plainLib with Encode := fun _ => some ([], some "encode") }

/-- Protection of one value in the instance `protectLib`: the content of a protected
value is reversed, an unprotected value is left as it is. -/
def protectValue (v : gokeepasslib.V) : gokeepasslib.V :=
  if v.Protected then { v with Content := String.mk v.Content.data.reverse } else v

/-- Protection of the values of one entry in the instance `protectLib`. -/
def protectEntry (entry : gokeepasslib.Entry) : gokeepasslib.Entry :=
  { Values := entry.Values.map (fun value => { value with Value := protectValue value.Value }) }

mutual
/-- Protection of every entry of a group tree in the instance `protectLib`. -/
def protectGroup : gokeepasslib.Group → gokeepasslib.Group
  | ⟨name, groups, entries⟩ => ⟨name, protectGroups groups, entries.map protectEntry⟩
/-- Protection of every entry of a list of group trees in the instance `protectLib`. -/
def protectGroups : List gokeepasslib.Group → List gokeepasslib.Group
  | [] => []
  | g :: rest => protectGroup g :: protectGroups rest
end

/-- Protection of every entry of a database in the instance `protectLib`. -/
def protectDatabase (d : gokeepasslib.Database) : gokeepasslib.Database :=
  { d with Content := d.Content.map (fun content =>
      { Meta := content.Meta,
        Root := content.Root.map (fun root => { Groups := protectGroups root.Groups }) }) }

/-- An instance of the library for concrete evaluation in which protection is visible:
locking and unlocking both reverse the content of every protected value, and a file holds
the database itself as its single unit. -/
def protectLib : gokeepasslib.Lib gokeepasslib.Database :=
  { plainLib with
    LockProtectedEntries := fun d => (protectDatabase d, none)
    UnlockProtectedEntries := fun d => (protectDatabase d, none) }

/-- Spec-side definition: the value of the field `key` of a stored entry — the content of
the last key/value field named `key`, the empty string when the entry has none. -/
def fieldValue (key : String) (values : List gokeepasslib.ValueData) : String :=
  match (values.filter (fun value => value.Key = key)).getLast? with
  | some value => value.Value.Content
  | none => ""

/-- Spec-side definition: the entry handed out for a stored entry of the group with path
`path` — the values of its fields `Title`, `UserName`, `Password`, `URL` and `Notes`, and
the path of the group. -/
def specEntry (path : String) (entry : gokeepasslib.Entry) : Entry :=
  { Title := fieldValue "Title" entry.Values
    Username := fieldValue "UserName" entry.Values
    Password := fieldValue "Password" entry.Values
    URL := fieldValue "URL" entry.Values
    Notes := fieldValue "Notes" entry.Values
    GroupPath := path }

mutual
/-- Spec-side definition: the group that mirrors a stored group — its name, its path, one
entry per stored entry in stored order, one subgroup per stored child group in stored
order, recursively. -/
def mirrorGroup : gokeepasslib.Group → String → Group
  | ⟨name, groups, entries⟩, parentPath =>
    { Name := name, Path := currentPath parentPath name,
      Entries := entries.map (specEntry (currentPath parentPath name)),
      SubGroups := mirrorGroups groups (currentPath parentPath name) }
/-- Spec-side definition: the mirrors of a list of stored groups, in stored order. -/
def mirrorGroups : List gokeepasslib.Group → String → List Group
  | [], _ => []
  | g :: rest, path => mirrorGroup g path :: mirrorGroups rest path
end

mutual
/-- Spec-side definition: the pre-order flattening of a returned group — its entries, then
the flattening of its subgroups in order, recursively. -/
def flattenGroup : Group → List Entry
  | ⟨_, _, entries, subGroups⟩ => entries ++ flattenGroups subGroups
/-- Spec-side definition: the pre-order flattening of a list of returned groups. -/
def flattenGroups : List Group → List Entry
  | [] => []
  | g :: rest => flattenGroup g ++ flattenGroups rest
end

mutual
/-- Spec-side definition: in a returned group and in every group below it, each entry
carries the path of the group that holds it. -/
def pathsAgree : Group → Bool
  | ⟨_, path, entries, subGroups⟩ =>
    entries.all (fun e => e.GroupPath == path) && pathsAgreeAll subGroups
/-- Spec-side definition: `pathsAgree` for every group of a list. -/
def pathsAgreeAll : List Group → Bool
  | [] => true
  | g :: rest => pathsAgree g && pathsAgreeAll rest
end

/-- Spec-side definition: the number of character classes, among the four class strings,
that hold the character `c`. -/
def classCount (c : Char) : Nat :=
  (if isInCharset c LowercaseLetters then 1 else 0) +
  (if isInCharset c UppercaseLetters then 1 else 0) +
  (if isInCharset c Digits then 1 else 0) +
  (if isInCharset c SpecialChars then 1 else 0)

/-- Spec-side definition: a password built for the options — one unambiguous character of
each enabled class (`a`, `A`, `2`, `!`), the block repeated eight times. -/
def passingPassword (opts : PasswordOptions) : String :=
  let block :=
    (if opts.UseLowercase then "a" else "") ++ (if opts.UseUppercase then "A" else "") ++
    (if opts.UseDigits then "2" else "") ++ (if opts.UseSpecial then "!" else "")
  block ++ block ++ block ++ block ++ block ++ block ++ block ++ block

end kdbx

/-! ## Properties -/

namespace kdbx

theorem isInCharsetLoop_iff (c : Char) (l : List Char) :
    isInCharsetLoop c l = true ↔ c ∈ l := by
  induction l with
  | nil => simp [isInCharsetLoop]
  | cons ch rest ih =>
    by_cases h : c = ch
    · simp [isInCharsetLoop, h]
    · simp [isInCharsetLoop, h, ih]

theorem isInCharset_iff (c : Char) (charset : String) :
    isInCharset c charset = true ↔ c ∈ charset.data :=
  isInCharsetLoop_iff c charset.data

theorem fillPassword_spec (rd : RandReader) (charset : String) (hpos : 0 < charset.length) :
    ∀ (n pos : Nat) (acc pw : List Char) (pos' : Nat),
      fillPassword rd charset n pos acc = (some pw, pos') →
      pw.length = acc.length + n ∧ pos' = pos + n ∧
        ∀ c ∈ pw, c ∈ acc ∨ c ∈ charset.data := by
  intro n
  induction n with
  | zero =>
    intro pos acc pw pos' h
    simp only [fillPassword, Prod.mk.injEq, Option.some.injEq] at h
    obtain ⟨rfl, rfl⟩ := h
    exact ⟨rfl, rfl, fun c hc => Or.inl hc⟩
  | succ n ih =>
    intro pos acc pw pos' h
    unfold fillPassword at h
    cases hr : rd pos with
    | none => simp [randInt, hr] at h
    | some raw =>
      simp only [randInt, hr, Option.map_some'] at h
      obtain ⟨h1, h2, h3⟩ := ih _ _ _ _ h
      refine ⟨by simp [h1]; omega, by omega, ?_⟩
      intro c hc
      rcases h3 c hc with h4 | h4
      · rcases List.mem_append.1 h4 with h5 | h5
        · exact Or.inl h5
        · right
          have hlt : raw % charset.length < charset.data.length := Nat.mod_lt _ hpos
          rw [List.mem_singleton] at h5
          rw [h5, List.getD_eq_getElem _ _ hlt]
          exact List.getElem_mem _
      · exact Or.inr h4

theorem validate_foldl_flags (l : List Char) :
    ∀ f : ClassFlags,
      ((l.foldl validateStep f).hasLower = true →
        f.hasLower = true ∨ ∃ c ∈ l, c ∈ LowercaseLetters.data) ∧
      ((l.foldl validateStep f).hasUpper = true →
        f.hasUpper = true ∨ ∃ c ∈ l, c ∈ UppercaseLetters.data) ∧
      ((l.foldl validateStep f).hasDigit = true →
        f.hasDigit = true ∨ ∃ c ∈ l, c ∈ Digits.data) ∧
      ((l.foldl validateStep f).hasSpecial = true →
        f.hasSpecial = true ∨ ∃ c ∈ l, c ∈ SpecialChars.data) := by
  induction l with
  | nil => intro f; simp
  | cons a rest ih =>
    intro f
    obtain ⟨h1, h2, h3, h4⟩ := ih (validateStep f a)
    simp only [List.foldl_cons, List.mem_cons, exists_eq_or_imp]
    by_cases ha : isInCharset a LowercaseLetters = true
    · have ha' := (isInCharset_iff _ _).1 ha
      simp only [validateStep, ha, if_true] at h1 h2 h3 h4 ⊢
      refine ⟨fun _ => Or.inr (Or.inl ha'), fun h => ?_, fun h => ?_, fun h => ?_⟩
      · exact (h2 h).imp id Or.inr
      · exact (h3 h).imp id Or.inr
      · exact (h4 h).imp id Or.inr
    by_cases hb : isInCharset a UppercaseLetters = true
    · have hb' := (isInCharset_iff _ _).1 hb
      simp only [validateStep, ha, hb, if_true, if_false] at h1 h2 h3 h4 ⊢
      refine ⟨fun h => ?_, fun _ => Or.inr (Or.inl hb'), fun h => ?_, fun h => ?_⟩
      · exact (h1 h).imp id Or.inr
      · exact (h3 h).imp id Or.inr
      · exact (h4 h).imp id Or.inr
    by_cases hc : isInCharset a Digits = true
    · have hc' := (isInCharset_iff _ _).1 hc
      simp only [validateStep, ha, hb, hc, if_true, if_false] at h1 h2 h3 h4 ⊢
      refine ⟨fun h => ?_, fun h => ?_, fun _ => Or.inr (Or.inl hc'), fun h => ?_⟩
      · exact (h1 h).imp id Or.inr
      · exact (h2 h).imp id Or.inr
      · exact (h4 h).imp id Or.inr
    by_cases hd : isInCharset a SpecialChars = true
    · have hd' := (isInCharset_iff _ _).1 hd
      simp only [validateStep, ha, hb, hc, hd, if_true, if_false] at h1 h2 h3 h4 ⊢
      refine ⟨fun h => ?_, fun h => ?_, fun h => ?_, fun _ => Or.inr (Or.inl hd')⟩
      · exact (h1 h).imp id Or.inr
      · exact (h2 h).imp id Or.inr
      · exact (h3 h).imp id Or.inr
    · simp only [validateStep, ha, hb, hc, hd, if_false] at h1 h2 h3 h4 ⊢
      exact ⟨fun h => (h1 h).imp id Or.inr, fun h => (h2 h).imp id Or.inr,
        fun h => (h3 h).imp id Or.inr, fun h => (h4 h).imp id Or.inr⟩

theorem validatePassword_classes (password : String) (opts : PasswordOptions)
    (h : validatePassword password opts = true) :
    (opts.UseLowercase = true → ∃ c ∈ password.data, c ∈ LowercaseLetters.data) ∧
    (opts.UseUppercase = true → ∃ c ∈ password.data, c ∈ UppercaseLetters.data) ∧
    (opts.UseDigits = true → ∃ c ∈ password.data, c ∈ Digits.data) ∧
    (opts.UseSpecial = true → ∃ c ∈ password.data, c ∈ SpecialChars.data) := by
  obtain ⟨h1, h2, h3, h4⟩ := validate_foldl_flags password.data ⟨false, false, false, false⟩
  unfold validatePassword at h
  simp only [Bool.false_eq_true, false_or] at h1 h2 h3 h4
  refine ⟨fun hu => h1 ?_, fun hu => h2 ?_, fun hu => h3 ?_, fun hu => h4 ?_⟩ <;>
  · revert h
    simp only [hu]
    cases (List.foldl validateStep ⟨false, false, false, false⟩ password.data).hasLower <;>
    cases (List.foldl validateStep ⟨false, false, false, false⟩ password.data).hasUpper <;>
    cases (List.foldl validateStep ⟨false, false, false, false⟩ password.data).hasDigit <;>
    cases (List.foldl validateStep ⟨false, false, false, false⟩ password.data).hasSpecial <;>
    cases opts.UseLowercase <;> cases opts.UseUppercase <;> cases opts.UseDigits <;>
    cases opts.UseSpecial <;> simp

/-- C1: with `Length ≥ 8` and at least one class enabled, for every random source, every
recursion depth and every starting position, a password returned without error has
exactly `Length` characters, all of them from `buildCharset opts`, and holds at least one
character of each enabled class. -/
theorem GeneratePassword_sound (rd : RandReader) (opts : PasswordOptions)
    (hlen : 8 ≤ opts.Length)
    (_hcls : opts.UseLowercase = true ∨ opts.UseUppercase = true ∨ opts.UseDigits = true ∨
      opts.UseSpecial = true)
    (fuel pos : Nat) (pw : String) (pos' : Nat)
    (h : GeneratePassword rd opts fuel pos = some ((pw, none), pos')) :
    (pw.length : Int) = opts.Length ∧
    (∀ c ∈ pw.data, c ∈ (buildCharset opts).data) ∧
    (opts.UseLowercase = true → ∃ c ∈ pw.data, c ∈ LowercaseLetters.data) ∧
    (opts.UseUppercase = true → ∃ c ∈ pw.data, c ∈ UppercaseLetters.data) ∧
    (opts.UseDigits = true → ∃ c ∈ pw.data, c ∈ Digits.data) ∧
    (opts.UseSpecial = true → ∃ c ∈ pw.data, c ∈ SpecialChars.data) := by
  induction fuel generalizing pos with
  | zero => simp [GeneratePassword] at h
  | succ fuel ih =>
    unfold GeneratePassword at h
    have hn : ¬ opts.Length < 8 := not_lt.2 hlen
    simp only [hn, if_false] at h
    by_cases hc : (buildCharset opts).length = 0
    · simp [hc] at h
    · simp only [hc, if_false] at h
      cases hf : fillPassword rd (buildCharset opts) opts.Length.toNat pos [] with
      | mk r pos1 =>
        cases r with
        | none => simp [hf] at h
        | some password =>
          simp only [hf] at h
          cases hv : validatePassword (String.mk password) opts with
          | false =>
            simp only [hv, Bool.not_false, if_true] at h
            exact ih pos1 h
          | true =>
            simp only [hv, Bool.not_true, Bool.false_eq_true, if_false, Option.some.injEq,
              Prod.mk.injEq, and_true] at h
            obtain ⟨rfl, -⟩ := h
            obtain ⟨h1, -, h3⟩ :=
              fillPassword_spec rd (buildCharset opts) (Nat.pos_of_ne_zero hc) _ _ _ _ _ hf
            refine ⟨?_, ?_, validatePassword_classes _ _ hv⟩
            · have : (String.mk password).length = opts.Length.toNat := by
                simpa [String.length] using h1
              rw [this]
              exact Int.toNat_of_nonneg (by omega)
            · intro c hc'
              simpa using h3 c hc'

/-- C1 (witness): the default classes with `Length = 8` and the random source delivering
`0, 26, 52, …` yield the password `aA0{qQ&g` at the first attempt. -/
theorem GeneratePassword_sound_witness :
    (({ DefaultPasswordOptions with Length := 8 } : PasswordOptions).Length = 8) ∧
    GeneratePassword (fun k => some (k * 26)) { DefaultPasswordOptions with Length := 8 } 1 0
      = some (("aA0\x7bqQ&g", none), 8) ∧
    (("aA0\x7bqQ&g" : String).length : Int) = 8 ∧
    (∀ c ∈ ("aA0\x7bqQ&g" : String).data,
      c ∈ (buildCharset { DefaultPasswordOptions with Length := 8 }).data) :=
  ⟨rfl, by decide,
    (GeneratePassword_sound (fun k => some (k * 26)) { DefaultPasswordOptions with Length := 8 }
      (by decide) (Or.inl rfl) 1 0 "aA0\x7bqQ&g" 8 (by decide)).1,
    (GeneratePassword_sound (fun k => some (k * 26)) { DefaultPasswordOptions with Length := 8 }
      (by decide) (Or.inl rfl) 1 0 "aA0\x7bqQ&g" 8 (by decide)).2.1⟩

/-- C10: `GeneratePassword` returns the empty string and an error, leaving the count of
random draws untouched, when `Length < 8` (whatever the toggles) and when all four
class toggles are off (whatever the length and the exclude-ambiguous flag). -/
theorem GeneratePassword_rejects (rd : RandReader) (opts : PasswordOptions)
    (h : opts.Length < 8 ∨
      (opts.UseLowercase = false ∧ opts.UseUppercase = false ∧ opts.UseDigits = false ∧
        opts.UseSpecial = false))
    (fuel pos : Nat) :
    ∃ msg : String, GeneratePassword rd opts (fuel + 1) pos = some (("", some msg), pos) := by
  unfold GeneratePassword
  by_cases hl : opts.Length < 8
  · exact ⟨"lunghezza password deve essere almeno 8 caratteri", by simp only [hl, if_true]⟩
  · rcases h with h | ⟨h1, h2, h3, h4⟩
    · exact absurd h hl
    · have hc : (buildCharset opts).length = 0 := by
        simp [buildCharset, h1, h2, h3, h4]
      exact ⟨"nessun set di caratteri selezionato", by simp only [hl, if_false, hc, if_true]⟩

/-- C10 (witness): length 7 with every class on, and length 20 with every class off. -/
theorem GeneratePassword_rejects_witness :
    (∃ msg : String, GeneratePassword (fun k => some k)
        { DefaultPasswordOptions with Length := 7 } 1 0 = some (("", some msg), 0)) ∧
    GeneratePassword (fun k => some k) ⟨20, false, false, false, false, true⟩ 1 5
      = some (("", some "nessun set di caratteri selezionato"), 5) :=
  ⟨GeneratePassword_rejects (fun k => some k) { DefaultPasswordOptions with Length := 7 }
      (Or.inl (by decide)) 0 0, by decide⟩

theorem CalculateEntropy_default_value :
    CalculateEntropy "a" DefaultPasswordOptions = 1.44269504089 * 2.71828182846 := by
  have h : ((buildCharset DefaultPasswordOptions).length : ℚ) = 88 := by
    have : (buildCharset DefaultPasswordOptions).length = 88 := by decide
    rw [this]; norm_num
  have hb : ("a" : String).utf8ByteSize = 1 := by decide
  unfold CalculateEntropy log2
  simp only [h, hb]
  norm_num

theorem foldl_append_singleton {α β : Type} (f : α → β) (l : List α) (acc : List β) :
    l.foldl (fun acc a => acc ++ [f a]) acc = acc ++ l.map f := by
  induction l generalizing acc with
  | nil => simp
  | cons a rest ih => simp [ih]

theorem extractEntries_eq_map (path : String) (entries : List gokeepasslib.Entry) :
    extractEntries path entries = entries.map (extractEntry path) := by
  unfold extractEntries
  rw [foldl_append_singleton]
  simp

mutual
theorem extractEntriesFromGroup_eq_preorder :
    ∀ (g : gokeepasslib.Group) (parentPath : String),
      extractEntriesFromGroup g parentPath = preorderEntries g parentPath
  | ⟨name, groups, entries⟩, parentPath => by
    rw [extractEntriesFromGroup, preorderEntries, extractEntries_eq_map,
      extractEntriesFromSubGroups_eq_preorder groups]
theorem extractEntriesFromSubGroups_eq_preorder :
    ∀ (groups : List gokeepasslib.Group) (path : String) (acc : List Entry),
      extractEntriesFromSubGroups groups path acc
        = acc ++ preorderChildren groups path
  | [], path, acc => by
    simp [extractEntriesFromSubGroups, preorderChildren]
  | g :: rest, path, acc => by
    rw [extractEntriesFromSubGroups, preorderChildren,
      extractEntriesFromSubGroups_eq_preorder rest, extractEntriesFromGroup_eq_preorder g,
      List.append_assoc]
end

mutual
theorem preorderEntries_length :
    ∀ (g : gokeepasslib.Group) (parentPath : String),
      (preorderEntries g parentPath).length = countEntries g
  | ⟨name, groups, entries⟩, parentPath => by
    rw [preorderEntries, countEntries, List.length_append, List.length_map,
      preorderChildren_length groups]
theorem preorderChildren_length :
    ∀ (groups : List gokeepasslib.Group) (path : String),
      (preorderChildren groups path).length = countChildren groups
  | [], path => by simp [preorderChildren, countChildren]
  | g :: rest, path => by
    rw [preorderChildren, countChildren, List.length_append,
      preorderEntries_length g, preorderChildren_length rest]
end


theorem intercalate_go_snoc (sep : String) (l : List String) (acc x : String) :
    String.intercalate.go acc sep (l ++ [x]) = String.intercalate.go acc sep l ++ sep ++ x := by
  induction l generalizing acc with
  | nil => simp [String.intercalate.go]
  | cons a rest ih => simp [String.intercalate.go, ih]

theorem intercalate_snoc (sep : String) (l : List String) (x : String) (h : l ≠ []) :
    sep.intercalate (l ++ [x]) = sep.intercalate l ++ sep ++ x := by
  cases l with
  | nil => exact absurd rfl h
  | cons a rest => simp [String.intercalate, intercalate_go_snoc]

theorem intercalate_go_length (sep : String) (l : List String) (acc : String) :
    acc.length ≤ (String.intercalate.go acc sep l).length := by
  induction l generalizing acc with
  | nil => simp [String.intercalate.go]
  | cons a rest ih =>
    simp only [String.intercalate.go]
    refine le_trans ?_ (ih _)
    simp [String.length_append]
    omega

theorem string_ne_empty_iff (s : String) : s ≠ "" ↔ 0 < s.length := by
  constructor
  · intro h
    by_contra hc
    apply h
    have : s.length = 0 := by omega
    cases s with
    | mk d =>
      have hd : d = [] := List.length_eq_zero.1 this
      subst hd
      rfl
  · intro h hs
    subst hs
    simp at h

theorem intercalate_ne_empty (sep : String) (l : List String) (hl : l ≠ [])
    (hne : ∀ s ∈ l, s ≠ "") : sep.intercalate l ≠ "" := by
  cases l with
  | nil => exact absurd rfl hl
  | cons a rest =>
    rw [string_ne_empty_iff]
    have ha : 0 < a.length := (string_ne_empty_iff a).1 (hne a (List.mem_cons_self _ _))
    exact lt_of_lt_of_le ha (intercalate_go_length sep rest a)

theorem foldl_currentPath (names : List String) :
    names.foldl currentPath "" = joinedGroupPath names := by
  induction names using List.reverseRecOn with
  | nil => rfl
  | append_singleton xs x ih =>
    rw [List.foldl_append, List.foldl_cons, List.foldl_nil, ih]
    unfold joinedGroupPath currentPath
    by_cases hx : x = ""
    · subst hx
      simp
    · simp only [ne_eq, hx, not_false_eq_true, if_true, List.filter_append]
      have hf : List.filter (fun n => decide (¬ n = "")) [x] = [x] := by simp [hx]
      rw [hf]
      by_cases hxs : List.filter (fun n => decide (¬ n = "")) xs = []
      · rw [hxs]
        simp [String.intercalate, String.intercalate.go]
      · have hne : " / ".intercalate (List.filter (fun n => decide (¬ n = "")) xs) ≠ "" :=
          intercalate_ne_empty _ _ hxs (fun s hs => by simpa using (List.mem_filter.1 hs).2)
        rw [if_pos hne, intercalate_snoc _ _ _ hxs, String.append_assoc]

theorem extractValue_groupPath (e : Entry) (value : gokeepasslib.ValueData) :
    (extractValue e value).GroupPath = e.GroupPath := by
  unfold extractValue
  split_ifs <;> rfl

theorem extractEntry_groupPath (path : String) (entry : gokeepasslib.Entry) :
    (extractEntry path entry).GroupPath = path := by
  unfold extractEntry
  have : ∀ (vs : List gokeepasslib.ValueData) (e : Entry),
      (vs.foldl extractValue e).GroupPath = e.GroupPath := by
    intro vs
    induction vs with
    | nil => intro e; rfl
    | cons v rest ih => intro e; rw [List.foldl_cons, ih, extractValue_groupPath]
  rw [this]

mutual
theorem preorderEntries_groupPath :
    ∀ (g : gokeepasslib.Group) (above : List String),
      (preorderEntries g (above.foldl currentPath "")).map (fun e => e.GroupPath)
        = (ownerNames g above).map (fun names => names.foldl currentPath "")
  | ⟨name, groups, entries⟩, above => by
    have hp : currentPath (above.foldl currentPath "") name
        = (above ++ [name]).foldl currentPath "" := by
      rw [List.foldl_append, List.foldl_cons, List.foldl_nil]
    rw [preorderEntries, ownerNames, List.map_append, List.map_append, hp,
      preorderChildren_groupPath groups (above ++ [name])]
    simp [extractEntry_groupPath, Function.comp_def]
theorem preorderChildren_groupPath :
    ∀ (groups : List gokeepasslib.Group) (above : List String),
      (preorderChildren groups (above.foldl currentPath "")).map (fun e => e.GroupPath)
        = (ownerNamesChildren groups above).map (fun names => names.foldl currentPath "")
  | [], above => by simp [preorderChildren, ownerNamesChildren]
  | g :: rest, above => by
    rw [preorderChildren, ownerNamesChildren, List.map_append, List.map_append,
      preorderEntries_groupPath g above, preorderChildren_groupPath rest above]
end

theorem extractEntry_addedValues (path : String) (vs : List gokeepasslib.ValueData)
    (title username password url notes : String) :
    extractEntry path ⟨vs ++ addedValues title username password url notes⟩
      = { Title := title, Username := username, Password := password, URL := url,
          Notes := notes, GroupPath := path } := by
  have hp := extractEntry_groupPath path ⟨vs⟩
  unfold extractEntry at hp ⊢
  simp only [List.foldl_append] at hp ⊢
  generalize List.foldl extractValue { GroupPath := path } vs = e0 at hp ⊢
  subst hp
  have h1 : ("UserName" = "Title") = False := by decide
  have h2 : ("Password" = "Title") = False := by decide
  have h3 : ("Password" = "UserName") = False := by decide
  have h4 : ("URL" = "Title") = False := by decide
  have h5 : ("URL" = "UserName") = False := by decide
  have h6 : ("URL" = "Password") = False := by decide
  have h7 : ("Notes" = "Title") = False := by decide
  have h8 : ("Notes" = "UserName") = False := by decide
  have h9 : ("Notes" = "Password") = False := by decide
  have h10 : ("Notes" = "URL") = False := by decide
  simp only [addedValues, List.foldl_cons, List.foldl_nil, extractValue, if_true, if_false,
    h1, h2, h3, h4, h5, h6, h7, h8, h9, h10]

theorem FileSystem_open_create_write {Byte : Type} (fs fs1 : FileSystem Byte) (path : String)
    (bytes : List Byte) (h : fs.create path = some fs1) :
    (fs1.write path bytes).open path = some bytes := by
  unfold FileSystem.create at h
  split_ifs at h
  simp only [Option.some.injEq] at h
  subst h
  simp only [FileSystem.write, FileSystem.open, List.map_cons, if_true, List.nil_append]
  simp [List.lookup]

/-- C2 (counterexample): in the tree Root > "A" > "B" with one entry in "B" and one held
by the root group, `GetAllEntries` gives the paths "Root" and "Root / A / B", whereas the
names with the root's own name skipped join to "" and "A / B". -/
theorem GetAllEntries_groupPath_counterexample :
    (Database.mk (some ⟨"", ⟨0, 0, 0, 0⟩, some ⟨none, some ⟨[⟨"Root",
        [⟨"A", [⟨"B", [], [⟨[]⟩]⟩], []⟩], [⟨[]⟩]⟩]⟩⟩⟩) "").GetAllEntries
      = some [{ GroupPath := "Root" }, { GroupPath := "Root / A / B" }] ∧
    ownerNames ⟨"Root", [⟨"A", [⟨"B", [], [⟨[]⟩]⟩], []⟩], [⟨[]⟩]⟩ []
      = [["Root"], ["Root", "A", "B"]] ∧
    specGroupPath ["Root"] = "" ∧ specGroupPath ["Root", "A", "B"] = "A / B" ∧
    ("Root" : String) ≠ "" ∧ ("Root / A / B" : String) ≠ "A / B" := by
  refine ⟨by decide, by decide, by decide, by decide, by decide, by decide⟩

/-- C2 (amended): for every database with a root group, the entries returned by
`GetAllEntries` carry, in pre-order, the " / "-join of the non-empty names of the groups
from the root group down to the owning group, the root group's own name included. -/
theorem GetAllEntries_groupPath (credentials : String) (settings : gokeepasslib.Settings)
    (meta : Option gokeepasslib.MetaData)
    (root : gokeepasslib.Group) (others : List gokeepasslib.Group) (filePath : String) :
    ∃ entries : List Entry,
      (Database.mk (some ⟨credentials, settings, some ⟨meta, some ⟨root :: others⟩⟩⟩)
        filePath).GetAllEntries = some entries ∧
      entries.map (fun e => e.GroupPath) = (ownerNames root []).map joinedGroupPath := by
  refine ⟨extractEntriesFromGroup root "", rfl, ?_⟩
  rw [extractEntriesFromGroup_eq_preorder]
  have h := preorderEntries_groupPath root []
  simp only [List.foldl_nil] at h
  rw [h]
  exact List.map_congr_left (fun names _ => foldl_currentPath names)

/-- C9: for every database with a root group, `GetAllEntries` returns the pre-order
depth-first traversal of the tree (the group's own entries in stored order, then each
child subtree in stored order), whose length is the number of entries of the tree. -/
theorem GetAllEntries_preorder (credentials : String) (settings : gokeepasslib.Settings)
    (meta : Option gokeepasslib.MetaData)
    (root : gokeepasslib.Group) (others : List gokeepasslib.Group) (filePath : String) :
    (Database.mk (some ⟨credentials, settings, some ⟨meta, some ⟨root :: others⟩⟩⟩)
        filePath).GetAllEntries = some (preorderEntries root "") ∧
    (preorderEntries root "").length = countEntries root := by
  refine ⟨?_, preorderEntries_length root ""⟩
  simp only [Database.GetAllEntries]
  rw [extractEntriesFromGroup_eq_preorder]

/-- C5: `isModernCipher c` holds exactly when `c` is `CipherAES256` or `CipherChaCha20`. -/
theorem isModernCipher_allow_list (c : CipherType) :
    isModernCipher c = true ↔ c = CipherAES256 ∨ c = CipherChaCha20 := by
  unfold isModernCipher ModernCiphers CipherAES256 CipherChaCha20
  by_cases h0 : c = 0
  · subst h0; simp [List.lookup]
  · by_cases h1 : c = 1
    · subst h1; simp [List.lookup]
    · have e0 : (c == (0 : Int)) = false := by simpa using h0
      have e1 : (c == (1 : Int)) = false := by simpa using h1
      simp [List.lookup, e0, e1, h0, h1]

/-- C6: with a cipher outside the allow-list, `Save` returns an error and leaves the
database and the file system exactly as they were. -/
theorem Save_rejects_cipher {Byte : Type} (lib : gokeepasslib.Lib Byte) (db : Database)
    (fs : FileSystem Byte) (opts : SaveOptions)
    (h : isModernCipher opts.CipherType = false) :
    db.Save lib fs opts
      = some ((db, fs), some "cipher non supportato: usa solo AES-256 o ChaCha20") := by
  simp [Database.Save, h]

/-- C6 (witness): cipher number 2 on a fresh database and a file system holding one
file. -/
theorem Save_rejects_cipher_witness :
    isModernCipher 2 = false ∧
    (Database.mk (some ⟨"pw", ⟨0, 0, 0, 0⟩, some ⟨none, some ⟨[⟨"Root", [], []⟩]⟩⟩⟩) "a.kdbx").Save
        plainLib ⟨[("a.kdbx", [])], []⟩ ⟨"a.kdbx", "pw", 2, 10, 1048576, 4⟩
      = some ((Database.mk (some ⟨"pw", ⟨0, 0, 0, 0⟩, some ⟨none, some ⟨[⟨"Root", [], []⟩]⟩⟩⟩)
          "a.kdbx", ⟨[("a.kdbx", [])], []⟩),
          some "cipher non supportato: usa solo AES-256 o ChaCha20") :=
  ⟨by decide, Save_rejects_cipher plainLib _ _ ⟨"a.kdbx", "pw", 2, 10, 1048576, 4⟩ (by decide)⟩

theorem findOrCreateGroup_root (credentials : String) (settings : gokeepasslib.Settings)
    (meta : Option gokeepasslib.MetaData)
    (root : gokeepasslib.Group) (others : List gokeepasslib.Group) (filePath path : String) :
    (Database.mk (some ⟨credentials, settings, some ⟨meta, some ⟨root :: others⟩⟩⟩)
        filePath).findOrCreateGroup path
      = some (Database.mk (some ⟨credentials, settings, some ⟨meta, some ⟨root :: others⟩⟩⟩)
          filePath, []) := by
  simp [Database.findOrCreateGroup]

theorem AddEntry_root {Byte : Type} (lib : gokeepasslib.Lib Byte) (credentials : String)
    (settings : gokeepasslib.Settings)
    (meta : Option gokeepasslib.MetaData) (root : gokeepasslib.Group)
    (others : List gokeepasslib.Group)
    (filePath groupPath title username password url notes : String) :
    (Database.mk (some ⟨credentials, settings, some ⟨meta, some ⟨root :: others⟩⟩⟩)
        filePath).AddEntry lib groupPath title username password url notes
      = some (Database.mk (some ⟨credentials, settings, some ⟨meta, some ⟨
          { root with Entries := root.Entries ++
              [⟨lib.NewEntry.Values ++ addedValues title username password url notes⟩] }
            :: others⟩⟩⟩) filePath, none) := by
  simp [Database.AddEntry, findOrCreateGroup_root, Database.appendEntry, modifyNth,
    modifyGroup, addedValues]

theorem preorderEntries_append_entry (name : String) (groups : List gokeepasslib.Group)
    (entries : List gokeepasslib.Entry) (entry : gokeepasslib.Entry) (parentPath : String) :
    preorderEntries ⟨name, groups, entries ++ [entry]⟩ parentPath
      = (preorderEntries ⟨name, groups, entries⟩ parentPath).take entries.length ++
          extractEntry (currentPath parentPath name) entry ::
          (preorderEntries ⟨name, groups, entries⟩ parentPath).drop entries.length := by
  have hl : (entries.map (extractEntry (currentPath parentPath name))).length
      = entries.length := List.length_map _ _
  simp only [preorderEntries, List.map_append, List.map_cons, List.map_nil]
  rw [List.take_left' hl, List.drop_left' hl]
  simp

/-- C3: on the database that `CreateNewDatabase` returns, `findOrCreateGroup "A / B"`
returns the pointer to the root group "Root" and leaves the tree without any child
group; the entry that `AddEntry "A / B"` adds lands in the root group. -/
theorem findOrCreateGroup_ignores_path :
    CreateNewDatabase plainLib (DefaultSaveOptions "a.kdbx" "pw")
      = (some (Database.mk (some ⟨"pw", ⟨0, 0, 0, 0⟩, some ⟨none, some ⟨[⟨"Root", [], []⟩]⟩⟩⟩)
          "a.kdbx"), none) ∧
    (Database.mk (some ⟨"pw", ⟨0, 0, 0, 0⟩, some ⟨none, some ⟨[⟨"Root", [], []⟩]⟩⟩⟩)
        "a.kdbx").findOrCreateGroup "A / B"
      = some (Database.mk (some ⟨"pw", ⟨0, 0, 0, 0⟩, some ⟨none, some ⟨[⟨"Root", [], []⟩]⟩⟩⟩)
          "a.kdbx", []) ∧
    (groupAt [] ⟨"Root", [], []⟩).map (fun g => g.Name) = some "Root" ∧
    (Database.mk (some ⟨"pw", ⟨0, 0, 0, 0⟩, some ⟨none, some ⟨[⟨"Root", [], []⟩]⟩⟩⟩)
        "a.kdbx").AddEntry plainLib "A / B" "T" "U" "P" "url" "n"
      = some (Database.mk (some ⟨"pw", ⟨0, 0, 0, 0⟩, some ⟨none, some ⟨[⟨"Root", [],
          [⟨addedValues "T" "U" "P" "url" "n"⟩]⟩]⟩⟩⟩) "a.kdbx", none) := by
  refine ⟨rfl, rfl, rfl, rfl⟩

/-- C4: for the password "a" and the default options (a universe of 88 characters)
`CalculateEntropy` returns the constant 1.44269504089 × 2.71828182846, which is less
than 1 × ln 88 / ln 2. -/
theorem CalculateEntropy_not_log2 :
    (buildCharset DefaultPasswordOptions).length = 88 ∧
    ("a" : String).utf8ByteSize = 1 ∧
    CalculateEntropy "a" DefaultPasswordOptions = 1.44269504089 * 2.71828182846 ∧
    ((CalculateEntropy "a" DefaultPasswordOptions : ℚ) : ℝ) <
      (1 : ℝ) * (Real.log 88 / Real.log 2) := by
  refine ⟨by decide, by decide, CalculateEntropy_default_value, ?_⟩
  rw [CalculateEntropy_default_value, one_mul]
  have h2 : (0 : ℝ) < Real.log 2 := Real.log_pos (by norm_num)
  rw [lt_div_iff₀ h2]
  have h16 : Real.log 16 = 4 * Real.log 2 := by
    rw [show (16 : ℝ) = 2 ^ 4 by norm_num, Real.log_pow]; norm_num
  have hlt : Real.log 16 < Real.log 88 := Real.log_lt_log (by norm_num) (by norm_num)
  have hc : (((1.44269504089 * 2.71828182846 : ℚ)) : ℝ) < 4 := by
    have : ((1.44269504089 * 2.71828182846 : ℚ)) < 4 := by norm_num
    exact_mod_cast this
  nlinarith

/-- C8: on a database with a root group, `AddEntry` succeeds for every argument tuple;
the group it resolves is the root group, which receives the new entry at the end of its
entry list while everything else stays as it was; `GetAllEntries` afterwards is the
previous result with the new entry inserted after the root group's own entries. -/
theorem AddEntry_appends {Byte : Type} (lib : gokeepasslib.Lib Byte) (credentials : String)
    (settings : gokeepasslib.Settings)
    (meta : Option gokeepasslib.MetaData) (root : gokeepasslib.Group)
    (others : List gokeepasslib.Group)
    (filePath groupPath title username password url notes : String) :
    (Database.mk (some ⟨credentials, settings, some ⟨meta, some ⟨root :: others⟩⟩⟩)
        filePath).findOrCreateGroup groupPath
      = some (Database.mk (some ⟨credentials, settings, some ⟨meta, some ⟨root :: others⟩⟩⟩)
          filePath, []) ∧
    (Database.mk (some ⟨credentials, settings, some ⟨meta, some ⟨root :: others⟩⟩⟩)
        filePath).AddEntry lib groupPath title username password url notes
      = some (Database.mk (some ⟨credentials, settings, some ⟨meta, some ⟨
          { root with Entries := root.Entries ++
              [⟨lib.NewEntry.Values ++ addedValues title username password url notes⟩] }
            :: others⟩⟩⟩) filePath, none) ∧
    ∃ before : List Entry,
      (Database.mk (some ⟨credentials, settings, some ⟨meta, some ⟨root :: others⟩⟩⟩)
        filePath).GetAllEntries = some before ∧
      (Database.mk (some ⟨credentials, settings, some ⟨meta, some ⟨
          { root with Entries := root.Entries ++
              [⟨lib.NewEntry.Values ++ addedValues title username password url notes⟩] }
            :: others⟩⟩⟩) filePath).GetAllEntries
        = some (before.take root.Entries.length ++
            { Title := title, Username := username, Password := password, URL := url,
              Notes := notes, GroupPath := currentPath "" root.Name } ::
            before.drop root.Entries.length) ∧
      (before.take root.Entries.length ++
            ({ Title := title, Username := username, Password := password, URL := url,
               Notes := notes, GroupPath := currentPath "" root.Name } : Entry) ::
            before.drop root.Entries.length).length = before.length + 1 := by
  refine ⟨findOrCreateGroup_root _ _ _ _ _ _ _, AddEntry_root _ _ _ _ _ _ _ _ _ _ _ _ _,
    extractEntriesFromGroup root "", rfl, ?_, ?_⟩
  · obtain ⟨name, groups, entries⟩ := root
    simp only [Database.GetAllEntries]
    rw [extractEntriesFromGroup_eq_preorder, extractEntriesFromGroup_eq_preorder,
      preorderEntries_append_entry, extractEntry_addedValues]
  · have hk : root.Entries.length ≤ (extractEntriesFromGroup root "").length := by
      rw [extractEntriesFromGroup_eq_preorder, preorderEntries_length]
      obtain ⟨name, groups, entries⟩ := root
      simp [countEntries]
    simp only [List.length_append, List.length_cons, List.length_take, List.length_drop]
    omega

theorem GetAllEntries_single (credentials : String) (settings : gokeepasslib.Settings)
    (meta : Option gokeepasslib.MetaData)
    (vs : List gokeepasslib.ValueData) (filePath title username password url notes : String) :
    (Database.mk (some ⟨credentials, settings, some ⟨meta, some ⟨[⟨"Root", [],
        [⟨vs ++ addedValues title username password url notes⟩]⟩]⟩⟩⟩) filePath).GetAllEntries
      = some [{ Title := title, Username := username, Password := password, URL := url,
                Notes := notes, GroupPath := "Root" }] := by
  have hp : currentPath "" "Root" = "Root" := by decide
  simp only [Database.GetAllEntries]
  rw [extractEntriesFromGroup_eq_preorder]
  simp only [preorderEntries, preorderChildren, List.map_cons, List.map_nil, hp,
    extractEntry_addedValues, List.append_nil]

/-- C7: for all strings, `CreateNewDatabase` followed by `AddEntry ""` gives a database
on which `GetAllEntries` returns exactly one entry with the five values unchanged; the
content of that database has no metadata, and `Save` on it with the default options —
here with the library instance `plainLib`, whose encoder panics on a content without
metadata as the library's does — panics instead of writing the file. -/
theorem roundtrip_save_panics {Byte : Type} (lib : gokeepasslib.Lib Byte) (opts : SaveOptions)
    (title username password url notes : String) :
    CreateNewDatabase lib opts
      = (some (Database.mk (some ⟨opts.Password, lib.NewDatabase.Settings,
          some ⟨none, some ⟨[⟨"Root", [], []⟩]⟩⟩⟩) opts.FilePath), none) ∧
    (Database.mk (some ⟨opts.Password, lib.NewDatabase.Settings,
        some ⟨none, some ⟨[⟨"Root", [], []⟩]⟩⟩⟩) opts.FilePath).AddEntry lib ""
        title username password url notes
      = some (Database.mk (some ⟨opts.Password, lib.NewDatabase.Settings,
          some ⟨none, some ⟨[⟨"Root", [],
            [⟨lib.NewEntry.Values ++ addedValues title username password url notes⟩]⟩]⟩⟩⟩)
          opts.FilePath, none) ∧
    (Database.mk (some ⟨opts.Password, lib.NewDatabase.Settings,
        some ⟨none, some ⟨[⟨"Root", [],
          [⟨lib.NewEntry.Values ++ addedValues title username password url notes⟩]⟩]⟩⟩⟩)
        opts.FilePath).GetAllEntries
      = some [{ Title := title, Username := username, Password := password, URL := url,
                Notes := notes, GroupPath := "Root" }] ∧
    ∀ files : List (String × List gokeepasslib.Database),
      (Database.mk (some ⟨opts.Password, plainLib.NewDatabase.Settings,
          some ⟨none, some ⟨[⟨"Root", [],
            [⟨plainLib.NewEntry.Values ++ addedValues title username password url notes⟩]⟩]⟩⟩⟩)
          opts.FilePath).Save plainLib ⟨files, []⟩
          (DefaultSaveOptions opts.FilePath opts.Password) = none := by
  refine ⟨rfl, AddEntry_root lib _ _ _ _ _ _ _ _ _ _ _ _, GetAllEntries_single _ _ _ _ _ _ _ _ _ _,
    ?_⟩
  intro files
  have hc : isModernCipher CipherChaCha20 = true := by decide
  simp [Database.Save, hc, setModernEncryption, plainLib, FileSystem.create,
    DefaultSaveOptions]

theorem removeAmbiguousStep_eq (acc : String) (a : Char) :
    removeAmbiguousStep "il1Lo0O" acc a
      = if ambiguousChars.contains a then acc else acc ++ String.singleton a := by
  have h : (("il1Lo0O" : String).data.any fun amb => a == amb)
      = ambiguousChars.contains a := by
    rw [List.contains_eq_any_beq]
    rfl
  unfold removeAmbiguousStep
  simp only [h]
  cases ambiguousChars.contains a <;> simp

theorem removeAmbiguous_foldl (l : List Char) (acc : String) :
    l.foldl (removeAmbiguousStep "il1Lo0O") acc
      = acc ++ String.mk (l.filter (fun c => !ambiguousChars.contains c)) := by
  induction l generalizing acc with
  | nil =>
    apply String.ext
    simp only [List.foldl_nil, List.filter_nil, String.data_append, List.append_nil]
  | cons a rest ih =>
    have hsing : (String.singleton a).data = [a] := rfl
    rw [List.foldl_cons, ih, removeAmbiguousStep_eq, List.filter_cons]
    cases hc : ambiguousChars.contains a
    · apply String.ext
      simp only [Bool.not_false, if_true, Bool.false_eq_true, if_false, String.data_append,
        hsing, List.append_assoc, List.singleton_append]
    · simp only [Bool.not_true, Bool.false_eq_true, if_false, if_true]

theorem removeAmbiguous_eq_specClass (s : String) :
    removeAmbiguous s = specClass true s := by
  unfold removeAmbiguous specClass
  rw [removeAmbiguous_foldl]
  apply String.ext
  simp only [String.data_append, if_true]
  rfl

/-- C11: for every `PasswordOptions`, `buildCharset` is the concatenation, in the order
lowercase, uppercase, digit, special, of the strings of the enabled classes, each with
the ambiguous characters removed when `ExcludeAmbiguous` is set (the special class
included) and whole otherwise. -/
theorem buildCharset_eq_specCharset (opts : PasswordOptions) :
    buildCharset opts = specCharset opts := by
  have hs : specClass true SpecialChars = SpecialChars := by decide
  have hf : ∀ s : String, specClass false s = s := fun s => rfl
  have he : ∀ s : String, "" ++ s = s := fun s => String.ext (by simp)
  have hr : ∀ s : String, s ++ "" = s := fun s => String.ext (by simp)
  obtain ⟨len, lower, upper, digits, special, exclude⟩ := opts
  unfold buildCharset specCharset
  cases lower <;> cases upper <;> cases digits <;> cases special <;> cases exclude <;>
    simp only [removeAmbiguous_eq_specClass, hs, hf, he, hr, if_true, if_false,
      Bool.false_eq_true]

/-- C15 (counterexample): the universe of the default options does not have 90
characters, and the special class does not have 28. -/
theorem default_charset_size_counterexample :
    (buildCharset DefaultPasswordOptions).length ≠ 26 + 26 + 10 + 28 ∧
    SpecialChars.length ≠ 28 := by
  refine ⟨by decide, by decide⟩

/-- C15 (amended): with the default options (length 20, all four classes, no ambiguous
exclusion) the universe has 26 + 26 + 10 + 26 = 88 characters, the lowercase, uppercase,
digit and special classes having 26, 26, 10 and 26 characters. -/
theorem default_charset_size :
    DefaultPasswordOptions = ⟨20, true, true, true, true, false⟩ ∧
    (buildCharset DefaultPasswordOptions).length = 26 + 26 + 10 + 26 ∧
    LowercaseLetters.length = 26 ∧ UppercaseLetters.length = 26 ∧ Digits.length = 10 ∧
    SpecialChars.length = 26 := by
  refine ⟨rfl, by decide, by decide, by decide, by decide, by decide⟩

/-- C16: for every `SaveOptions`, `CreateNewDatabase` returns without error a database
whose tree is the single root group "Root" without entries and without child groups and
whose `FilePath` is `opts.FilePath`; `GetAllEntries` on it is empty and `GetAllGroups`
returns exactly one group. -/
theorem CreateNewDatabase_fresh {Byte : Type} (lib : gokeepasslib.Lib Byte)
    (opts : SaveOptions) :
    CreateNewDatabase lib opts
      = (some (Database.mk (some ⟨opts.Password, lib.NewDatabase.Settings,
          some ⟨none, some ⟨[⟨"Root", [], []⟩]⟩⟩⟩) opts.FilePath), none) ∧
    (Database.mk (some ⟨opts.Password, lib.NewDatabase.Settings,
        some ⟨none, some ⟨[⟨"Root", [], []⟩]⟩⟩⟩) opts.FilePath).GetAllEntries = some [] ∧
    (Database.mk (some ⟨opts.Password, lib.NewDatabase.Settings,
        some ⟨none, some ⟨[⟨"Root", [], []⟩]⟩⟩⟩) opts.FilePath).GetAllGroups
      = some [⟨"Root", "Root", [], []⟩] := by
  refine ⟨rfl, rfl, rfl⟩

/-- C17: on a database with a root group, `findOrCreateGroup` returns the same pointer —
the root group — at the first and at the second call with the same path, for every
path, "" and "Root" included, and each call leaves the database as it was. -/
theorem findOrCreateGroup_idempotent (credentials : String)
    (settings : gokeepasslib.Settings)
    (meta : Option gokeepasslib.MetaData) (root : gokeepasslib.Group)
    (others : List gokeepasslib.Group) (filePath path : String) :
    (Database.mk (some ⟨credentials, settings, some ⟨meta, some ⟨root :: others⟩⟩⟩)
        filePath).findOrCreateGroup path
      = some (Database.mk (some ⟨credentials, settings, some ⟨meta, some ⟨root :: others⟩⟩⟩)
          filePath, []) ∧
    ((Database.mk (some ⟨credentials, settings, some ⟨meta, some ⟨root :: others⟩⟩⟩)
        filePath).findOrCreateGroup path).bind (fun r => r.1.findOrCreateGroup path)
      = some (Database.mk (some ⟨credentials, settings, some ⟨meta, some ⟨root :: others⟩⟩⟩)
          filePath, []) ∧
    groupAt [] root = some root := by
  refine ⟨findOrCreateGroup_root _ _ _ _ _ _ _, ?_, rfl⟩
  rw [findOrCreateGroup_root]
  exact findOrCreateGroup_root _ _ _ _ _ _ _

/-- C14: on a database whose root data holds an empty list of top-level groups
`AddEntry` panics (`Groups[0]` in `findOrCreateGroup`), whereas `GetAllGroups` returns
the empty sequence there; with the content or the root data missing `AddEntry` returns
its error and the database as it was. -/
theorem AddEntry_panics_on_empty_groups :
    (Database.mk (some ⟨"pw", ⟨0, 0, 0, 0⟩, some ⟨none, some ⟨[]⟩⟩⟩) "a.kdbx").AddEntry plainLib
        "" "T" "U" "P" "url" "n" = none ∧
    (Database.mk (some ⟨"pw", ⟨0, 0, 0, 0⟩, some ⟨none, some ⟨[]⟩⟩⟩) "a.kdbx").GetAllGroups
      = some [] ∧
    (Database.mk (some ⟨"pw", ⟨0, 0, 0, 0⟩, some ⟨none, none⟩⟩) "a.kdbx").AddEntry plainLib
        "" "T" "U" "P" "url" "n"
      = some (Database.mk (some ⟨"pw", ⟨0, 0, 0, 0⟩, some ⟨none, none⟩⟩) "a.kdbx",
          some "database non inizializzato correttamente") ∧
    (Database.mk (some ⟨"pw", ⟨0, 0, 0, 0⟩, none⟩) "a.kdbx").AddEntry plainLib
        "" "T" "U" "P" "url" "n"
      = some (Database.mk (some ⟨"pw", ⟨0, 0, 0, 0⟩, none⟩) "a.kdbx",
          some "database non inizializzato correttamente") := by
  refine ⟨rfl, rfl, rfl, rfl⟩

theorem setModernEncryption_keeps_settings {Byte : Type} (lib : gokeepasslib.Lib Byte)
    (d : gokeepasslib.Database) (opts opts2 : SaveOptions) :
    setModernEncryption d opts = (d, none) ∧
    setModernEncryption d opts = setModernEncryption d opts2 ∧
    ∃ (db : Database) (d1 : gokeepasslib.Database),
      CreateNewDatabase lib opts = (some db, none) ∧ db.Embedded = some d1 ∧
      d1.Settings = lib.NewDatabase.Settings :=
  ⟨rfl, rfl, _, _, rfl, rfl, rfl⟩

/-- C20: on a database whose settings hold cipher 0 and no KDF parameters, the call of
`setModernEncryption` with the default options (ChaCha20, 10 iterations, 1048576 KB,
parallelism 4) returns no error and leaves cipher 0 and the KDF parameters 0; the calls
with AES-256 and with ChaCha20 leave the same settings; and the database that
`CreateNewDatabase` returns for the default options has the settings of the library's new
database, cipher 0, not ChaCha20. -/
theorem setModernEncryption_ignores_options :
    setModernEncryption ⟨"pw", ⟨0, 0, 0, 0⟩, none⟩ (DefaultSaveOptions "a.kdbx" "pw")
      = (⟨"pw", ⟨0, 0, 0, 0⟩, none⟩, none) ∧
    (setModernEncryption ⟨"pw", ⟨0, 0, 0, 0⟩, none⟩
        (DefaultSaveOptions "a.kdbx" "pw")).1.Settings.Cipher
      ≠ (DefaultSaveOptions "a.kdbx" "pw").CipherType ∧
    (setModernEncryption ⟨"pw", ⟨0, 0, 0, 0⟩, none⟩
        (DefaultSaveOptions "a.kdbx" "pw")).1.Settings.KDFIterations
      ≠ (DefaultSaveOptions "a.kdbx" "pw").KDFIterations ∧
    (setModernEncryption ⟨"pw", ⟨0, 0, 0, 0⟩, none⟩
        (DefaultSaveOptions "a.kdbx" "pw")).1.Settings.KDFMemory
      ≠ (DefaultSaveOptions "a.kdbx" "pw").KDFMemory ∧
    (setModernEncryption ⟨"pw", ⟨0, 0, 0, 0⟩, none⟩
        (DefaultSaveOptions "a.kdbx" "pw")).1.Settings.KDFParallelism
      ≠ (DefaultSaveOptions "a.kdbx" "pw").KDFParallelism ∧
    (setModernEncryption ⟨"pw", ⟨0, 0, 0, 0⟩, none⟩
        ⟨"a.kdbx", "pw", CipherAES256, 10, 1048576, 4⟩).1.Settings
      = (setModernEncryption ⟨"pw", ⟨0, 0, 0, 0⟩, none⟩
        ⟨"a.kdbx", "pw", CipherChaCha20, 10, 1048576, 4⟩).1.Settings ∧
    CreateNewDatabase plainLib (DefaultSaveOptions "a.kdbx" "pw")
      = (some (Database.mk (some ⟨"pw", ⟨0, 0, 0, 0⟩,
          some ⟨none, some ⟨[⟨"Root", [], []⟩]⟩⟩⟩) "a.kdbx"), none) ∧
    (0 : Int) ≠ CipherChaCha20 := by
  refine ⟨rfl, by decide, by decide, by decide, by decide, rfl, rfl, by decide⟩

theorem fillPassword_zero (charset : String) :
    ∀ (n pos : Nat) (acc : List Char),
      fillPassword (fun _ => some 0) charset n pos acc
        = (some (acc ++ List.replicate n (charset.data.getD 0 default)), pos + n) := by
  intro n
  induction n with
  | zero => intro pos acc; simp [fillPassword]
  | succ n ih =>
    intro pos acc
    have h0 : 0 % charset.length = 0 := Nat.zero_mod _
    simp only [fillPassword, randInt, Option.map_some', h0, ih, List.append_assoc,
      List.singleton_append, List.replicate_succ]
    congr 1
    omega

theorem validateStep_idem (f : ClassFlags) (c : Char) :
    validateStep (validateStep f c) c = validateStep f c := by
  unfold validateStep
  split_ifs <;> rfl

theorem validate_foldl_replicate (c : Char) (n : Nat) (f : ClassFlags) :
    (List.replicate (n + 1) c).foldl validateStep f = validateStep f c := by
  induction n generalizing f with
  | zero => rfl
  | succ n ih =>
    rw [List.replicate_succ, List.foldl_cons, ih, validateStep_idem]

theorem validateStep_one_flag (c : Char) :
    validateStep ⟨false, false, false, false⟩ c = ⟨true, false, false, false⟩ ∨
    validateStep ⟨false, false, false, false⟩ c = ⟨false, true, false, false⟩ ∨
    validateStep ⟨false, false, false, false⟩ c = ⟨false, false, true, false⟩ ∨
    validateStep ⟨false, false, false, false⟩ c = ⟨false, false, false, true⟩ ∨
    validateStep ⟨false, false, false, false⟩ c = ⟨false, false, false, false⟩ := by
  unfold validateStep
  split_ifs <;> simp

theorem validatePassword_replicate (opts : PasswordOptions) (c : Char) (n : Nat)
    (htwo : 2 ≤ enabledClasses opts) :
    validatePassword (String.mk (List.replicate (n + 1) c)) opts = false := by
  unfold validatePassword
  simp only [validate_foldl_replicate]
  obtain ⟨len, lower, upper, digits, special, exclude⟩ := opts
  rcases validateStep_one_flag c with h | h | h | h | h <;> rw [h] <;>
    cases lower <;> cases upper <;> cases digits <;> cases special <;>
    simp [enabledClasses] at htwo ⊢

theorem buildCharset_ignores_length (n : Int) (lower upper digits special exclude : Bool) :
    buildCharset ⟨n, lower, upper, digits, special, exclude⟩
      = buildCharset ⟨0, lower, upper, digits, special, exclude⟩ := rfl

theorem buildCharset_length_pos (opts : PasswordOptions) (h : 1 ≤ enabledClasses opts) :
    0 < (buildCharset opts).length := by
  obtain ⟨len, lower, upper, digits, special, exclude⟩ := opts
  rw [buildCharset_ignores_length]
  cases lower <;> cases upper <;> cases digits <;> cases special <;> cases exclude <;>
    first
    | (simp [enabledClasses] at h; done)
    | decide

theorem GeneratePassword_zero_reader (opts : PasswordOptions) (hlen : 8 ≤ opts.Length)
    (htwo : 2 ≤ enabledClasses opts) (fuel pos : Nat) :
    GeneratePassword (fun _ => some 0) opts fuel pos = none := by
  induction fuel generalizing pos with
  | zero => rfl
  | succ fuel ih =>
    have hn : ¬ opts.Length < 8 := not_lt.2 hlen
    have hc : ¬ (buildCharset opts).length = 0 :=
      Nat.pos_iff_ne_zero.1 (buildCharset_length_pos opts (by omega))
    obtain ⟨m, hm⟩ : ∃ m, opts.Length.toNat = m + 1 :=
      ⟨opts.Length.toNat - 1, by omega⟩
    unfold GeneratePassword
    simp only [hn, if_false, hc, fillPassword_zero, List.nil_append,
      hm, validatePassword_replicate opts _ m htwo, Bool.not_false, if_true, ih]

/-- C12 (counterexample): with the default options and the random source that always
delivers index 0, a recursion depth of 1001 sampling attempts is exhausted without a
result, and no depth at all yields a result, be it a password or an error. -/
theorem GeneratePassword_retry_cap_counterexample :
    GeneratePassword (fun _ => some 0) DefaultPasswordOptions 1001 0 = none ∧
    ¬ ∃ (fuel : Nat) (r : (String × Option String) × Nat),
      GeneratePassword (fun _ => some 0) DefaultPasswordOptions fuel 0 = some r := by
  refine ⟨GeneratePassword_zero_reader _ (by decide) (by decide) _ _, ?_⟩
  rintro ⟨fuel, r, h⟩
  rw [GeneratePassword_zero_reader _ (by decide) (by decide)] at h
  exact Option.noConfusion h

/-- C12 (amended): resampling is not bounded — with `Length ≥ 8`, two or more classes
enabled and the random source that always delivers index 0, every sampling attempt
fails the class check and is followed by another one, so that no recursion depth
suffices for `GeneratePassword` to return a password or an error. -/
theorem GeneratePassword_unbounded (opts : PasswordOptions) (hlen : 8 ≤ opts.Length)
    (htwo : 2 ≤ enabledClasses opts) (fuel pos : Nat) :
    GeneratePassword (fun _ => some 0) opts fuel pos = none :=
  GeneratePassword_zero_reader opts hlen htwo fuel pos

/-- C12 (witness): the default options and 5000 sampling attempts. -/
theorem GeneratePassword_unbounded_witness :
    (8 : Int) ≤ DefaultPasswordOptions.Length ∧ 2 ≤ enabledClasses DefaultPasswordOptions ∧
    GeneratePassword (fun _ => some 0) DefaultPasswordOptions 5000 0 = none :=
  ⟨by decide, by decide,
    GeneratePassword_unbounded DefaultPasswordOptions (by decide) (by decide) 5000 0⟩

theorem FileSystem_open_create {Byte : Type} (fs fs1 : FileSystem Byte) (path : String)
    (h : fs.create path = some fs1) : fs1.open path = some [] := by
  unfold FileSystem.create at h
  split_ifs at h
  simp only [Option.some.injEq] at h
  subst h
  simp [FileSystem.open, List.lookup]

/-- C13 (counterexample): the file "a.kdbx" holds a database; `Save` with an allowed
cipher and an encoder that fails returns the encoding error and leaves the file empty. -/
theorem Save_all_or_nothing_counterexample :
    isModernCipher (DefaultSaveOptions "a.kdbx" "pw").CipherType = true ∧
    (FileSystem.mk [("a.kdbx", [(⟨"pw", ⟨0, 0, 0, 0⟩, none⟩ : gokeepasslib.Database)])]
        []).open "a.kdbx"
      = some [⟨"pw", ⟨0, 0, 0, 0⟩, none⟩] ∧
    (Database.mk (some ⟨"pw", ⟨0, 0, 0, 0⟩,
        some ⟨some ⟨"meta"⟩, some ⟨[⟨"Root", [], []⟩]⟩⟩⟩) "a.kdbx").Save
        brokenEncodeLib ⟨[("a.kdbx", [⟨"pw", ⟨0, 0, 0, 0⟩, none⟩])], []⟩
        (DefaultSaveOptions "a.kdbx" "pw")
      = some ((Database.mk (some ⟨"pw", ⟨0, 0, 0, 0⟩,
          some ⟨some ⟨"meta"⟩, some ⟨[⟨"Root", [], []⟩]⟩⟩⟩)
          "a.kdbx", ⟨[("a.kdbx", [])], []⟩), some "errore encoding database") ∧
    (FileSystem.mk [("a.kdbx", ([] : List gokeepasslib.Database))] []).open "a.kdbx"
      = some [] ∧
    (some [] : Option (List gokeepasslib.Database)) ≠ some [⟨"pw", ⟨0, 0, 0, 0⟩, none⟩] := by
  refine ⟨by decide, rfl, rfl, rfl, by simp⟩

/-- C13 (amended): `Save` writes in place — with an allowed cipher, when locking and
`os.Create` succeed and the encoder fails, `Save` returns the encoding error and
`FilePath` keeps its value; the file at `opts.FilePath` was emptied by `os.Create` and
afterwards holds exactly what the encoder wrote before it failed, so that its content
after `Save` is its content before `Save` exactly when it already held those bytes. -/
theorem Save_encode_failure {Byte : Type} (lib : gokeepasslib.Lib Byte)
    (d d1 : gokeepasslib.Database) (filePath : String) (fs fs1 : FileSystem Byte)
    (opts : SaveOptions) (bytes : List Byte) (msg : String)
    (hc : isModernCipher opts.CipherType = true)
    (hl : lib.LockProtectedEntries d = (d1, none))
    (hcr : fs.create opts.FilePath = some fs1)
    (he : lib.Encode d1 = some (bytes, some msg)) :
    (Database.mk (some d) filePath).Save lib fs opts
      = some ((Database.mk (some d1) filePath, fs1.write opts.FilePath bytes),
          some "errore encoding database") ∧
    fs1.open opts.FilePath = some [] ∧
    (fs1.write opts.FilePath bytes).open opts.FilePath = some bytes ∧
    ((fs1.write opts.FilePath bytes).open opts.FilePath = fs.open opts.FilePath ↔
      fs.open opts.FilePath = some bytes) := by
  have hw := FileSystem_open_create_write fs fs1 _ bytes hcr
  refine ⟨?_, FileSystem_open_create fs fs1 _ hcr, hw, ?_⟩
  · simp only [Database.Save, hc, Bool.not_true, Bool.false_eq_true, if_false,
      setModernEncryption, hl, hcr, he]
  · rw [hw]
    exact eq_comm

/-- C13 (witness): the encoder of `brokenEncodeLib` on a file that held a database. -/
theorem Save_encode_failure_witness :
    (Database.mk (some ⟨"pw", ⟨0, 0, 0, 0⟩,
        some ⟨some ⟨"meta"⟩, some ⟨[⟨"Root", [], []⟩]⟩⟩⟩) "old.kdbx").Save brokenEncodeLib
        ⟨[("a.kdbx", [⟨"pw", ⟨0, 0, 0, 0⟩, none⟩])], []⟩ (DefaultSaveOptions "a.kdbx" "pw")
      = some ((Database.mk (some ⟨"pw", ⟨0, 0, 0, 0⟩,
          some ⟨some ⟨"meta"⟩, some ⟨[⟨"Root", [], []⟩]⟩⟩⟩) "old.kdbx",
          (FileSystem.mk [("a.kdbx", [])] []).write "a.kdbx" []),
          some "errore encoding database") ∧
    (FileSystem.mk [("a.kdbx", ([] : List gokeepasslib.Database))] []).open "a.kdbx"
      = some [] ∧
    ((FileSystem.mk [("a.kdbx", ([] : List gokeepasslib.Database))] []).write "a.kdbx"
        []).open "a.kdbx" = some [] ∧
    (((FileSystem.mk [("a.kdbx", ([] : List gokeepasslib.Database))] []).write "a.kdbx"
        []).open "a.kdbx"
      = (FileSystem.mk [("a.kdbx", [(⟨"pw", ⟨0, 0, 0, 0⟩, none⟩ : gokeepasslib.Database)])]
          []).open "a.kdbx" ↔
      (FileSystem.mk [("a.kdbx", [(⟨"pw", ⟨0, 0, 0, 0⟩, none⟩ : gokeepasslib.Database)])]
          []).open "a.kdbx" = some []) :=
  Save_encode_failure brokenEncodeLib
    ⟨"pw", ⟨0, 0, 0, 0⟩, some ⟨some ⟨"meta"⟩, some ⟨[⟨"Root", [], []⟩]⟩⟩⟩
    ⟨"pw", ⟨0, 0, 0, 0⟩, some ⟨some ⟨"meta"⟩, some ⟨[⟨"Root", [], []⟩]⟩⟩⟩
    "old.kdbx" ⟨[("a.kdbx", [⟨"pw", ⟨0, 0, 0, 0⟩, none⟩])], []⟩ ⟨[("a.kdbx", [])], []⟩
    (DefaultSaveOptions "a.kdbx" "pw") [] "encode" (by decide) rfl rfl rfl

/-- C18 (counterexample): with the library instance `protectLib`, a database whose single
entry has the protected password "secret" returns that password before `Save`; `Save`
succeeds, and afterwards `GetAllEntries` returns the password "terces". -/
theorem Save_lifecycle_counterexample :
    (Database.mk (some ⟨"pw", ⟨0, 0, 0, 0⟩, some ⟨some ⟨"meta"⟩, some ⟨[⟨"Root", [],
        [⟨[⟨"Password", ⟨"secret", true⟩⟩]⟩]⟩]⟩⟩⟩) "a.kdbx").GetAllEntries
      = some [{ Password := "secret", GroupPath := "Root" }] ∧
    (Database.mk (some ⟨"pw", ⟨0, 0, 0, 0⟩, some ⟨some ⟨"meta"⟩, some ⟨[⟨"Root", [],
        [⟨[⟨"Password", ⟨"secret", true⟩⟩]⟩]⟩]⟩⟩⟩) "a.kdbx").Save protectLib ⟨[], []⟩
        (DefaultSaveOptions "a.kdbx" "pw")
      = some ((Database.mk (some ⟨"pw", ⟨0, 0, 0, 0⟩, some ⟨some ⟨"meta"⟩, some ⟨[⟨"Root", [],
          [⟨[⟨"Password", ⟨"terces", true⟩⟩]⟩]⟩]⟩⟩⟩) "a.kdbx",
          ⟨[("a.kdbx", [⟨"pw", ⟨0, 0, 0, 0⟩, some ⟨some ⟨"meta"⟩, some ⟨[⟨"Root", [],
            [⟨[⟨"Password", ⟨"terces", true⟩⟩]⟩]⟩]⟩⟩⟩])], []⟩), none) ∧
    (Database.mk (some ⟨"pw", ⟨0, 0, 0, 0⟩, some ⟨some ⟨"meta"⟩, some ⟨[⟨"Root", [],
        [⟨[⟨"Password", ⟨"terces", true⟩⟩]⟩]⟩]⟩⟩⟩) "a.kdbx").GetAllEntries
      = some [{ Password := "terces", GroupPath := "Root" }] ∧
    ("terces" : String) ≠ "secret" := by
  refine ⟨by decide, rfl, by decide, by decide⟩

/-- C18 (amended): a successful `Save` leaves the database in the locked form — locking
succeeded, the embedded database is the one `LockProtectedEntries` produced, which is the
one `Close` would leave, and `FilePath` is `opts.FilePath`. -/
theorem Save_leaves_locked {Byte : Type} (lib : gokeepasslib.Lib Byte)
    (d : gokeepasslib.Database) (filePath : String) (fs fs1 : FileSystem Byte)
    (opts : SaveOptions) (db1 : Database)
    (h : (Database.mk (some d) filePath).Save lib fs opts = some ((db1, fs1), none)) :
    (lib.LockProtectedEntries d).2 = none ∧
    db1 = Database.mk (some (lib.LockProtectedEntries d).1) opts.FilePath ∧
    db1.Embedded = ((Database.mk (some d) filePath).Close lib).1.Embedded := by
  unfold Database.Save at h
  by_cases hciph : isModernCipher opts.CipherType = true
  · simp only [hciph, Bool.not_true, Bool.false_eq_true, if_false, setModernEncryption] at h
    cases hl : lib.LockProtectedEntries d with
    | mk d1 e1 =>
      simp only [hl] at h
      cases e1 with
      | some msg => simp at h
      | none =>
        simp only at h
        cases hc : fs.create opts.FilePath with
        | none => simp [hc] at h
        | some fs2 =>
          simp only [hc] at h
          cases he : lib.Encode d1 with
          | none => simp [he] at h
          | some r =>
            obtain ⟨bytes, e2⟩ := r
            simp only [he] at h
            cases e2 with
            | some msg => simp at h
            | none =>
              simp only [Option.some.injEq, Prod.mk.injEq, and_true] at h
              obtain ⟨hdb, -⟩ := h
              subst hdb
              simp [Database.Close, hl]
  · simp [hciph] at h

/-- C18 (witness): the database with the protected password "secret" and `protectLib`. -/
theorem Save_leaves_locked_witness :
    (protectLib.LockProtectedEntries ⟨"pw", ⟨0, 0, 0, 0⟩, some ⟨some ⟨"meta"⟩, some ⟨[⟨"Root", [],
        [⟨[⟨"Password", ⟨"secret", true⟩⟩]⟩]⟩]⟩⟩⟩).2 = none ∧
    Database.mk (some ⟨"pw", ⟨0, 0, 0, 0⟩, some ⟨some ⟨"meta"⟩, some ⟨[⟨"Root", [],
        [⟨[⟨"Password", ⟨"terces", true⟩⟩]⟩]⟩]⟩⟩⟩) "a.kdbx"
      = Database.mk (some (protectLib.LockProtectedEntries ⟨"pw", ⟨0, 0, 0, 0⟩,
          some ⟨some ⟨"meta"⟩, some ⟨[⟨"Root", [], [⟨[⟨"Password", ⟨"secret", true⟩⟩]⟩]⟩]⟩⟩⟩).1)
          (DefaultSaveOptions "a.kdbx" "pw").FilePath ∧
    (Database.mk (some ⟨"pw", ⟨0, 0, 0, 0⟩, some ⟨some ⟨"meta"⟩, some ⟨[⟨"Root", [],
        [⟨[⟨"Password", ⟨"terces", true⟩⟩]⟩]⟩]⟩⟩⟩) "a.kdbx").Embedded
      = ((Database.mk (some ⟨"pw", ⟨0, 0, 0, 0⟩, some ⟨some ⟨"meta"⟩, some ⟨[⟨"Root", [],
          [⟨[⟨"Password", ⟨"secret", true⟩⟩]⟩]⟩]⟩⟩⟩) "old.kdbx").Close protectLib).1.Embedded :=
  Save_leaves_locked protectLib _ "old.kdbx" ⟨[], []⟩
    ⟨[("a.kdbx", [⟨"pw", ⟨0, 0, 0, 0⟩, some ⟨some ⟨"meta"⟩, some ⟨[⟨"Root", [],
      [⟨[⟨"Password", ⟨"terces", true⟩⟩]⟩]⟩]⟩⟩⟩])], []⟩
    (DefaultSaveOptions "a.kdbx" "pw") _ rfl

theorem fieldValue_append_singleton (key : String) (vs : List gokeepasslib.ValueData)
    (v : gokeepasslib.ValueData) :
    fieldValue key (vs ++ [v])
      = if v.Key = key then v.Value.Content else fieldValue key vs := by
  unfold fieldValue
  rw [List.filter_append]
  by_cases h : v.Key = key
  · simp [h, List.filter_cons]
  · simp [h, List.filter_cons]

theorem extractEntry_eq_specEntry (path : String) (entry : gokeepasslib.Entry) :
    extractEntry path entry = specEntry path entry := by
  obtain ⟨vs⟩ := entry
  unfold extractEntry
  simp only
  induction vs using List.reverseRecOn with
  | nil => rfl
  | append_singleton vs v ih =>
    rw [List.foldl_append, List.foldl_cons, List.foldl_nil, ih]
    unfold specEntry extractValue
    simp only [fieldValue_append_singleton]
    generalize v.Key = k
    by_cases h1 : k = "Title"
    · subst h1; simp
    by_cases h2 : k = "UserName"
    · subst h2; simp
    by_cases h3 : k = "Password"
    · subst h3; simp
    by_cases h4 : k = "URL"
    · subst h4; simp
    by_cases h5 : k = "Notes"
    · subst h5; simp
    · simp [h1, h2, h3, h4, h5]

theorem extractEntry_eq_specEntry_fun (path : String) :
    extractEntry path = specEntry path :=
  funext (extractEntry_eq_specEntry path)

mutual
theorem extractGroups_eq_mirror :
    ∀ (g : gokeepasslib.Group) (parentPath : String),
      extractGroups g parentPath = [mirrorGroup g parentPath]
  | ⟨name, groups, entries⟩, parentPath => by
    rw [extractGroups, mirrorGroup, extractEntries_eq_map, extractSubGroups_eq_mirror groups,
      List.nil_append, extractEntry_eq_specEntry_fun]
theorem extractSubGroups_eq_mirror :
    ∀ (groups : List gokeepasslib.Group) (path : String) (acc : List Group),
      extractSubGroups groups path acc = acc ++ mirrorGroups groups path
  | [], path, acc => by simp [extractSubGroups, mirrorGroups]
  | g :: rest, path, acc => by
    rw [extractSubGroups, mirrorGroups, extractSubGroups_eq_mirror rest,
      extractGroups_eq_mirror g, List.append_assoc, List.singleton_append]
end

theorem mirrorGroups_length (path : String) :
    ∀ groups : List gokeepasslib.Group, (mirrorGroups groups path).length = groups.length
  | [] => rfl
  | g :: rest => by rw [mirrorGroups, List.length_cons, mirrorGroups_length path rest,
      List.length_cons]

/-- C19 (counterexample): a `Database` whose embedded pointer is nil has no root group,
and `GetAllGroups` panics on it instead of returning the empty sequence. -/
theorem GetAllGroups_nil_counterexample :
    (Database.mk none "a.kdbx").GetAllGroups = none ∧
    (Database.mk none "a.kdbx").GetAllGroups ≠ some [] := by
  refine ⟨rfl, ?_⟩
  intro h
  exact Option.noConfusion h

/-- C19 (amended): for a database with a root group `GetAllGroups` returns the one group
that mirrors the stored root group node for node — its name, its path, one entry per
stored entry in stored order carrying the values of the fields `Title`, `UserName`,
`Password`, `URL` and `Notes` of that entry, and one subgroup per stored child group in
stored order, recursively; for a database whose embedded library database is present but
has no root group (content missing, root data missing or no top-level group) it returns
the empty sequence. -/
theorem GetAllGroups_mirror (credentials : String) (settings : gokeepasslib.Settings)
    (meta : Option gokeepasslib.MetaData)
    (root : gokeepasslib.Group) (others : List gokeepasslib.Group) (filePath : String) :
    (Database.mk (some ⟨credentials, settings, some ⟨meta, some ⟨root :: others⟩⟩⟩)
        filePath).GetAllGroups = some [mirrorGroup root ""] ∧
    (mirrorGroup root "").Name = root.Name ∧
    (mirrorGroup root "").Entries = root.Entries.map (specEntry (currentPath "" root.Name)) ∧
    (mirrorGroup root "").SubGroups = mirrorGroups root.Groups (currentPath "" root.Name) ∧
    (mirrorGroup root "").SubGroups.length = root.Groups.length ∧
    (Database.mk (some ⟨credentials, settings, none⟩) filePath).GetAllGroups = some [] ∧
    (Database.mk (some ⟨credentials, settings, some ⟨meta, none⟩⟩) filePath).GetAllGroups
      = some [] ∧
    (Database.mk (some ⟨credentials, settings, some ⟨meta, some ⟨[]⟩⟩⟩) filePath).GetAllGroups
      = some [] := by
  obtain ⟨name, groups, entries⟩ := root
  refine ⟨?_, ?_, ?_, ?_, ?_, rfl, rfl, rfl⟩
  · simp only [Database.GetAllGroups]
    rw [extractGroups_eq_mirror]
  · simp only [mirrorGroup]
  · simp only [mirrorGroup]
  · simp only [mirrorGroup]
  · simp only [mirrorGroup]
    exact mirrorGroups_length _ groups

/-- C21: on a database whose root data holds an empty list of top-level groups
`GetAllEntries` panics (`Groups[0]` out of range), whereas `GetAllGroups` returns the
empty sequence there; with the content or the root data missing both return the empty
sequence. -/
theorem GetAllEntries_panics_on_empty_groups :
    (Database.mk (some ⟨"pw", ⟨0, 0, 0, 0⟩, some ⟨none, some ⟨[]⟩⟩⟩) "a.kdbx").GetAllEntries
      = none ∧
    (Database.mk (some ⟨"pw", ⟨0, 0, 0, 0⟩, some ⟨none, some ⟨[]⟩⟩⟩) "a.kdbx").GetAllGroups
      = some [] ∧
    (Database.mk (some ⟨"pw", ⟨0, 0, 0, 0⟩, some ⟨none, none⟩⟩) "a.kdbx").GetAllEntries
      = some [] ∧
    (Database.mk (some ⟨"pw", ⟨0, 0, 0, 0⟩, none⟩) "a.kdbx").GetAllEntries = some [] := by
  refine ⟨rfl, rfl, rfl, rfl⟩

mutual
theorem flattenGroup_mirror :
    ∀ (g : gokeepasslib.Group) (parentPath : String),
      flattenGroup (mirrorGroup g parentPath) = preorderEntries g parentPath
  | ⟨name, groups, entries⟩, parentPath => by
    rw [mirrorGroup, flattenGroup, preorderEntries, flattenGroups_mirror groups,
      extractEntry_eq_specEntry_fun]
theorem flattenGroups_mirror :
    ∀ (groups : List gokeepasslib.Group) (path : String),
      flattenGroups (mirrorGroups groups path) = preorderChildren groups path
  | [], path => by simp [mirrorGroups, flattenGroups, preorderChildren]
  | g :: rest, path => by
    rw [mirrorGroups, flattenGroups, preorderChildren, flattenGroup_mirror g,
      flattenGroups_mirror rest]
end

mutual
theorem pathsAgree_mirror :
    ∀ (g : gokeepasslib.Group) (parentPath : String),
      pathsAgree (mirrorGroup g parentPath) = true
  | ⟨name, groups, entries⟩, parentPath => by
    rw [mirrorGroup, pathsAgree, pathsAgreeAll_mirror groups, Bool.and_true, List.all_eq_true]
    intro e he
    obtain ⟨entry, -, rfl⟩ := List.mem_map.1 he
    exact beq_self_eq_true _
theorem pathsAgreeAll_mirror :
    ∀ (groups : List gokeepasslib.Group) (path : String),
      pathsAgreeAll (mirrorGroups groups path) = true
  | [], path => by simp [mirrorGroups, pathsAgreeAll]
  | g :: rest, path => by
    rw [mirrorGroups, pathsAgreeAll, pathsAgree_mirror g, pathsAgreeAll_mirror rest]
    rfl
end

/-- C22: for every database with a root group, the pre-order flattening of the result of
`GetAllGroups` (each group's entries, then its subgroups in order, recursively) is the
sequence that `GetAllEntries` returns, group paths included, and in every returned group
the entries carry the path of the group. -/
theorem GetAllGroups_flatten_eq_GetAllEntries (credentials : String)
    (settings : gokeepasslib.Settings)
    (meta : Option gokeepasslib.MetaData) (root : gokeepasslib.Group)
    (others : List gokeepasslib.Group) (filePath : String) :
    ∃ (groups : List Group) (entries : List Entry),
      (Database.mk (some ⟨credentials, settings, some ⟨meta, some ⟨root :: others⟩⟩⟩)
        filePath).GetAllGroups = some groups ∧
      (Database.mk (some ⟨credentials, settings, some ⟨meta, some ⟨root :: others⟩⟩⟩)
        filePath).GetAllEntries = some entries ∧
      flattenGroups groups = entries ∧
      pathsAgreeAll groups = true := by
  refine ⟨extractGroups root "", extractEntriesFromGroup root "", rfl, rfl, ?_, ?_⟩
  · rw [extractGroups_eq_mirror, extractEntriesFromGroup_eq_preorder, flattenGroups,
      flattenGroups, List.append_nil, flattenGroup_mirror]
  · rw [extractGroups_eq_mirror, pathsAgreeAll, pathsAgreeAll, pathsAgree_mirror]
    rfl

set_option maxRecDepth 100000 in
theorem classes_nodup :
    (LowercaseLetters ++ UppercaseLetters ++ Digits ++ SpecialChars).data.Nodup := by
  decide

set_option maxRecDepth 100000 in
theorem classes_classCount :
    ∀ c ∈ (LowercaseLetters ++ UppercaseLetters ++ Digits ++ SpecialChars).data,
      classCount c = 1 := by
  decide

theorem specClass_sublist (exclude : Bool) (cls : String) :
    (specClass exclude cls).data.Sublist cls.data := by
  unfold specClass
  cases exclude
  · exact List.Sublist.refl _
  · exact List.filter_sublist _

theorem specPart_sublist (use exclude : Bool) (cls : String) :
    (if use = true then specClass exclude cls else "").data.Sublist cls.data := by
  cases use
  · exact List.nil_sublist _
  · exact specClass_sublist exclude cls

theorem buildCharset_sublist (opts : PasswordOptions) :
    (buildCharset opts).data.Sublist
      (LowercaseLetters ++ UppercaseLetters ++ Digits ++ SpecialChars).data := by
  rw [buildCharset_eq_specCharset]
  unfold specCharset
  simp only [String.data_append]
  exact ((((specPart_sublist _ _ _).append (specPart_sublist _ _ _)).append
    (specPart_sublist _ _ _)).append (specPart_sublist _ _ _))

theorem passingPassword_passes_aux :
    ∀ lower upper digits special exclude : Bool,
      1 ≤ enabledClasses ⟨0, lower, upper, digits, special, exclude⟩ →
      8 ≤ (passingPassword ⟨0, lower, upper, digits, special, exclude⟩).length ∧
      (∀ c ∈ (passingPassword ⟨0, lower, upper, digits, special, exclude⟩).data,
        c ∈ (buildCharset ⟨0, lower, upper, digits, special, exclude⟩).data) ∧
      validatePassword (passingPassword ⟨0, lower, upper, digits, special, exclude⟩)
        ⟨0, lower, upper, digits, special, exclude⟩ = true := by
  intro lower upper digits special exclude
  cases lower <;> cases upper <;> cases digits <;> cases special <;> cases exclude <;> decide

theorem enabled_class_contributes_aux :
    ∀ lower upper digits special exclude : Bool,
      (lower = true → ∃ c ∈ (buildCharset ⟨0, lower, upper, digits, special, exclude⟩).data,
        c ∈ LowercaseLetters.data) ∧
      (upper = true → ∃ c ∈ (buildCharset ⟨0, lower, upper, digits, special, exclude⟩).data,
        c ∈ UppercaseLetters.data) ∧
      (digits = true → ∃ c ∈ (buildCharset ⟨0, lower, upper, digits, special, exclude⟩).data,
        c ∈ Digits.data) ∧
      (special = true → ∃ c ∈ (buildCharset ⟨0, lower, upper, digits, special, exclude⟩).data,
        c ∈ SpecialChars.data) := by
  intro lower upper digits special exclude
  cases lower <;> cases upper <;> cases digits <;> cases special <;> cases exclude <;> decide

/-- C23 (counterexample): with all four class toggles off the universe is empty, and no
password of length at least 8 consists of characters of the universe. -/
theorem passing_password_counterexample :
    buildCharset ⟨8, false, false, false, false, false⟩ = "" ∧
    ¬ ∃ pw : String, 8 ≤ pw.length ∧
      (∀ c ∈ pw.data, c ∈ (buildCharset ⟨8, false, false, false, false, false⟩).data) ∧
      validatePassword pw ⟨8, false, false, false, false, false⟩ = true := by
  refine ⟨rfl, ?_⟩
  rintro ⟨pw, hlen, hmem, -⟩
  have hne : pw.data ≠ [] := by
    intro h
    have h0 : pw.length = 0 := by
      cases pw with
      | mk data =>
        simp only at h
        subst h
        rfl
    omega
  obtain ⟨c, rest, hc⟩ := List.exists_cons_of_ne_nil hne
  have hin := hmem c (by rw [hc]; exact List.mem_cons_self _ _)
  have hu : (buildCharset ⟨8, false, false, false, false, false⟩).data = [] := rfl
  rw [hu] at hin
  exact absurd hin (List.not_mem_nil _)

/-- C23 (amended): for every `PasswordOptions` the universe holds no character twice (the
four class strings together, whole or with the ambiguous characters removed, hold none
twice), every character of the universe lies in exactly one class, ambiguous exclusion
leaves 23, 24, 8 and 26 characters in the four classes, every enabled class has a
character in the universe, and when at least one class is enabled some password of
length at least 8 over the universe passes `validatePassword`. -/
theorem buildCharset_distinct (opts : PasswordOptions) :
    (buildCharset opts).data.Nodup ∧
    (LowercaseLetters ++ UppercaseLetters ++ Digits ++ SpecialChars).data.Nodup ∧
    (removeAmbiguous LowercaseLetters ++ removeAmbiguous UppercaseLetters ++
      removeAmbiguous Digits ++ removeAmbiguous SpecialChars).data.Nodup ∧
    (∀ c ∈ (buildCharset opts).data, classCount c = 1) ∧
    ((removeAmbiguous LowercaseLetters).length = 23 ∧
      (removeAmbiguous UppercaseLetters).length = 24 ∧
      (removeAmbiguous Digits).length = 8 ∧ (removeAmbiguous SpecialChars).length = 26) ∧
    (opts.UseLowercase = true → ∃ c ∈ (buildCharset opts).data, c ∈ LowercaseLetters.data) ∧
    (opts.UseUppercase = true → ∃ c ∈ (buildCharset opts).data, c ∈ UppercaseLetters.data) ∧
    (opts.UseDigits = true → ∃ c ∈ (buildCharset opts).data, c ∈ Digits.data) ∧
    (opts.UseSpecial = true → ∃ c ∈ (buildCharset opts).data, c ∈ SpecialChars.data) ∧
    (1 ≤ enabledClasses opts →
      ∃ pw : String, 8 ≤ pw.length ∧ (∀ c ∈ pw.data, c ∈ (buildCharset opts).data) ∧
        validatePassword pw opts = true) := by
  have hsub := buildCharset_sublist opts
  have hex : (removeAmbiguous LowercaseLetters ++ removeAmbiguous UppercaseLetters ++
      removeAmbiguous Digits ++ removeAmbiguous SpecialChars).data.Sublist
      (LowercaseLetters ++ UppercaseLetters ++ Digits ++ SpecialChars).data := by
    simp only [removeAmbiguous_eq_specClass, String.data_append]
    exact ((((specClass_sublist _ _).append (specClass_sublist _ _)).append
      (specClass_sublist _ _)).append (specClass_sublist _ _))
  obtain ⟨len, lower, upper, digits, special, exclude⟩ := opts
  obtain ⟨h1, h2, h3, h4⟩ := enabled_class_contributes_aux lower upper digits special exclude
  refine ⟨classes_nodup.sublist hsub, classes_nodup, classes_nodup.sublist hex,
    fun c hc => classes_classCount c (hsub.subset hc),
    ⟨by decide, by decide, by decide, by decide⟩, h1, h2, h3, h4, ?_⟩
  intro hen
  exact ⟨passingPassword ⟨0, lower, upper, digits, special, exclude⟩,
    passingPassword_passes_aux lower upper digits special exclude hen⟩

/-- C23 (witness): the default options; the password built for them is
`aA2!aA2!aA2!aA2!aA2!aA2!aA2!aA2!`. -/
theorem buildCharset_distinct_witness :
    1 ≤ enabledClasses DefaultPasswordOptions ∧
    passingPassword DefaultPasswordOptions = "aA2!aA2!aA2!aA2!aA2!aA2!aA2!aA2!" ∧
    validatePassword "aA2!aA2!aA2!aA2!aA2!aA2!aA2!aA2!" DefaultPasswordOptions = true ∧
    ∃ pw : String, 8 ≤ pw.length ∧
      (∀ c ∈ pw.data, c ∈ (buildCharset DefaultPasswordOptions).data) ∧
      validatePassword pw DefaultPasswordOptions = true :=
  ⟨by decide, by decide, by decide,
    (buildCharset_distinct DefaultPasswordOptions).2.2.2.2.2.2.2.2.2 (by decide)⟩

end kdbx
